import Mathlib

/-!
# influx-telegram-proxy: notification parsing, message formatting, delivery

A shallow embedding of the Go packages `telegram` and `proxy` of
`cordalace/influx-telegram-proxy`, and the properties of the escaping rule,
the formatted message, the delivery classification, the parser and the
request handler.

Go strings are byte sequences; `for _, r := range text` decodes them as UTF-8
(an invalid byte is read as U+FFFD and one byte is consumed) and
`string([]rune)` encodes runes as UTF-8.  Both are modelled at the byte level.
-/

namespace InfluxTelegramProxy

/-! ## Go strings and runes -/

/-- A Go `byte`. -/
abbrev Byte := Fin 256

/-- A Go `string`: an immutable sequence of bytes, not necessarily valid UTF-8. -/
abbrev GoString := List Byte

/-! A Go `rune` produced by decoding is a non-negative `int32`; runes are natural
numbers here. -/

/-- The conversion `byte(x)` of Go: truncation to eight bits. -/
def byte (x : Nat) : Byte := ⟨x % 256, Nat.mod_lt x (by decide)⟩

/-! Constants of Go's runtime (`runtime/utf8.go`): the replacement character,
the first non-ASCII byte, the largest code point, the surrogate range, the
largest rune of each encoded width, the leading-byte thresholds and the range
of continuation bytes. -/

def runeError : Nat := 0xFFFD
def runeSelf : Nat := 0x80
def maxRune : Nat := 0x10FFFF
def surrogateMin : Nat := 0xD800
def surrogateMax : Nat := 0xDFFF
def rune1Max : Nat := 0x7F
def rune2Max : Nat := 0x7FF
def rune3Max : Nat := 0xFFFF
def t2 : Nat := 0xC0
def t3 : Nat := 0xE0
def t4 : Nat := 0xF0
def t5 : Nat := 0xF8
def locb : Nat := 0x80
def hicb : Nat := 0xBF

/-- The byte `s[i]` when `len(s) > i` and it is a continuation byte
(`locb <= s[i] && s[i] <= hicb`), with the payload `s[i] & maskx` (six bits). -/
def contByte (s : GoString) (i : Nat) : Option Nat :=
  match s.get? i with
  | some b => if locb ≤ b.val ∧ b.val ≤ hicb then some (b.val % 64) else none
  | none => none

/-- Go runtime `decoderune(s, 0)`: the rune at the start of `s` and its width.
An ill-formed, overlong, surrogate or out-of-range sequence gives
`(runeError, 1)`.  The masks and shifts of the runtime
(`rune(s[0]&mask2)<<6 | rune(s[1]&maskx)` ...) are written with `%` and `*`. -/
def decoderune (s : GoString) : Nat × Nat :=
  match s with
  | [] => (runeError, 1)
  | s0 :: _ =>
    if t2 ≤ s0.val ∧ s0.val < t3 then
      match contByte s 1 with
      | some c1 =>
        let r := (s0.val % 32) * 64 + c1
        if rune1Max < r then (r, 2) else (runeError, 1)
      | none => (runeError, 1)
    else if t3 ≤ s0.val ∧ s0.val < t4 then
      match contByte s 1, contByte s 2 with
      | some c1, some c2 =>
        let r := (s0.val % 16) * 4096 + c1 * 64 + c2
        if rune2Max < r ∧ ¬ (surrogateMin ≤ r ∧ r ≤ surrogateMax) then (r, 3)
        else (runeError, 1)
      | _, _ => (runeError, 1)
    else if t4 ≤ s0.val ∧ s0.val < t5 then
      match contByte s 1, contByte s 2, contByte s 3 with
      | some c1, some c2, some c3 =>
        let r := (s0.val % 8) * 262144 + c1 * 4096 + c2 * 64 + c3
        if rune3Max < r ∧ r ≤ maxRune then (r, 4) else (runeError, 1)
      | _, _, _ => (runeError, 1)
    else (runeError, 1)

/-- One iteration of `for _, r := range s` on a non-empty remainder: a byte
below `runeSelf` is the rune itself, otherwise `decoderune` is consulted. -/
def rangeStep (s0 : Byte) (rest : GoString) : Nat × Nat :=
  if s0.val < runeSelf then (s0.val, 1) else decoderune (s0 :: rest)

/-- The runes visited by `for _, r := range s`, with the loop counter as fuel
(every iteration advances by at least one byte). -/
def rangeRunesAux : Nat → GoString → List Nat
  | 0, _ => []
  | _ + 1, [] => []
  | fuel + 1, s0 :: rest =>
    let step := rangeStep s0 rest
    step.1 :: rangeRunesAux fuel (rest.drop (step.2 - 1))

/-- The runes visited by `for _, r := range s`. -/
def rangeRunes (s : GoString) : List Nat := rangeRunesAux s.length s

/-- Go runtime `encoderune`: the UTF-8 encoding of a rune; a surrogate or a
value above `maxRune` is encoded as `runeError`. -/
def encoderune (r : Nat) : GoString :=
  if r ≤ rune1Max then [byte r]
  else if r ≤ rune2Max then [byte (0xC0 + r / 64), byte (0x80 + r % 64)]
  else if maxRune < r ∨ (surrogateMin ≤ r ∧ r ≤ surrogateMax) then [0xEF, 0xBF, 0xBD]
  else if r ≤ rune3Max then
    [byte (0xE0 + r / 4096), byte (0x80 + r / 64 % 64), byte (0x80 + r % 64)]
  else
    [byte (0xF0 + r / 262144), byte (0x80 + r / 4096 % 64), byte (0x80 + r / 64 % 64),
      byte (0x80 + r % 64)]

/-- The conversion `string(rs)` of a rune slice. -/
def stringOfRunes (rs : List Nat) : GoString := rs.flatMap encoderune

/-- A Unicode scalar value: a code point that is not a surrogate. -/
def validRune (r : Nat) : Prop := r < surrogateMin ∨ (surrogateMax < r ∧ r ≤ maxRune)

instance (r : Nat) : Decidable (validRune r) := by unfold validRune; infer_instance

/-- A Go string literal: the UTF-8 bytes of its characters. -/
def lit (s : String) : GoString := stringOfRunes (s.toList.map Char.toNat)

/-! ## package telegram: escaping -/

/-- The slice `safe` of `markdownSafe` after the loop: a rune with code in
`1 ..= 126` is appended after a backslash, any other rune alone. -/
def markdownSafeRunes (text : GoString) : List Nat :=
  (rangeRunes text).foldl
    (fun safe r => if 1 ≤ r ∧ r ≤ 126 then safe ++ [0x5C, r] else safe ++ [r]) []

/-- The capacity `len(text)+len(text)` given to `make([]rune, 0, ...)`. -/
def markdownSafeCap (text : GoString) : Nat := text.length + text.length

/-- Go `markdownSafe`. -/
def markdownSafe (text : GoString) : GoString := stringOfRunes (markdownSafeRunes text)

/-- Go `markdownBold`. -/
def markdownBold (text : GoString) : GoString := lit "*" ++ markdownSafe text ++ lit "*"


/-! ## The escaping rule as the specification words it -/

/-- The escaping rule on one code point: a backslash before a code point in
`1 ..= 126`, any other code point unchanged. -/
def escapeRune (c : Nat) : List Nat := if 1 ≤ c ∧ c ≤ 126 then [0x5C, c] else [c]

/-- Reversing the escaping rule on code points: scanning left to right, a
backslash is dropped and the code point after it is kept literally. -/
def unescapeRunes : List Nat → List Nat
  | [] => []
  | [c] => [c]
  | c :: d :: rest => if c = 0x5C then d :: unescapeRunes rest else c :: unescapeRunes (d :: rest)

/-- Reversing the escaping rule on a string. -/
def unescape (s : GoString) : GoString := stringOfRunes (unescapeRunes (rangeRunes s))

/-- Well-formed UTF-8: the encoding of a sequence of Unicode scalar values. -/
def ValidUTF8 (s : GoString) : Prop :=
  ∃ rs : List Nat, (∀ r ∈ rs, validRune r) ∧ stringOfRunes rs = s

/-- The number of code points of a list in the escaped range `1 ..= 126`. -/
def escapedCount (rs : List Nat) : Nat := rs.countP (fun c => decide (1 ≤ c ∧ c ≤ 126))

/-! ## package notification -/

/-- A `time.Time` as seen through `Date()`, `Clock()` and `Zone()`: the civil
date and clock reading in the value's own zone, and the zone offset in seconds
east of UTC. -/
structure Time where
  year : Int
  month : Nat
  day : Nat
  hour : Nat
  min : Nat
  sec : Nat
  nsec : Nat
  offset : Int
deriving DecidableEq

/-- Go `notification.Notification`. -/
structure Notification where
  CheckID : GoString
  CheckName : GoString
  Level : GoString
  Message : GoString
  Time : Time
  Type_ : GoString
deriving DecidableEq

/-! ## Standard library: `time.Time.Format`, `strings.ToUpper`, `fmt.Sprintf` -/

/-- The decimal digits of a natural number, as ASCII bytes. -/
def decimalDigits (u : Nat) : GoString := (Nat.toDigits 10 u).map (fun c => byte c.toNat)

/-- Go `appendInt` of package time: an optional minus sign, then the decimal
digits of the absolute value, zero-padded on the left to `width`. -/
def appendInt (x : Int) (width : Nat) : GoString :=
  let digits := decimalDigits x.natAbs
  (if x < 0 then lit "-" else []) ++ List.replicate (width - digits.length) (byte 0x30) ++ digits

/-- The zone suffix of layout element `Z07:00`: `Z` for offset zero, otherwise
the sign and the offset in hours and minutes (`offset / 60` truncates). -/
def formatZone (offset : Int) : GoString :=
  if offset = 0 then lit "Z"
  else
    let zone := Int.tdiv offset 60
    (if zone < 0 then lit "-" else lit "+")
      ++ appendInt (Int.tdiv zone.natAbs 60) 2 ++ lit ":" ++ appendInt (Int.tmod zone.natAbs 60) 2

/-- Go `t.Format(time.RFC3339)`, layout `2006-01-02T15:04:05Z07:00`. -/
def formatRFC3339 (t : Time) : GoString :=
  appendInt t.year 4 ++ lit "-" ++ appendInt t.month 2 ++ lit "-" ++ appendInt t.day 2
    ++ lit "T" ++ appendInt t.hour 2 ++ lit ":" ++ appendInt t.min 2 ++ lit ":"
    ++ appendInt t.sec 2 ++ formatZone t.offset

/-- Go `strings.Map(mapping, s)` for a mapping without negative results: every
rune read from `s` is mapped and encoded (an unchanged valid prefix is copied,
which is the same bytes). -/
def stringsMap (mapping : Nat → Nat) (s : GoString) : GoString :=
  stringOfRunes ((rangeRunes s).map mapping)

/-- Go `strings.ToUpper`.  A string of bytes below `runeSelf` takes the ASCII
path (`c -= 'a' - 'A'` on lower-case letters); any other string is mapped rune
by rune through `unicode.ToUpper`, a table of the standard library taken as the
parameter `unicodeToUpper`. -/
def ToUpper (unicodeToUpper : Nat → Nat) (s : GoString) : GoString :=
  if s.all (fun c => decide (c.val < runeSelf)) then
    if s.any (fun c => decide (0x61 ≤ c.val ∧ c.val ≤ 0x7A)) then
      s.map (fun c => if 0x61 ≤ c.val ∧ c.val ≤ 0x7A then byte (c.val - 0x20) else c)
    else s
  else stringsMap unicodeToUpper s

/-- Go `fmt.Sprintf` on string operands, for formats made of literal text, the
verb `%v` and `%%` (the source uses no other verb).  A string operand under `%v`
is written as it is; a `%v` without operand writes `%!v(MISSING)`; operands left
over are reported as `%!(EXTRA string=...)`. -/
def sprintf : GoString → List GoString → GoString
  | [], [] => []
  | [], a :: args =>
    lit "%!(EXTRA " ++ (lit ", ").intercalate ((a :: args).map (fun x => lit "string=" ++ x))
      ++ lit ")"
  | c :: format, args =>
    if c = 0x25 then
      match format with
      | [] => lit "%!(NOVERB)"
      | d :: format' =>
        if d = 0x76 then
          match args with
          | a :: args' => a ++ sprintf format' args'
          | [] => lit "%!v(MISSING)" ++ sprintf format' []
        else if d = 0x25 then 0x25 :: sprintf format' args
        else c :: d :: sprintf format' args
    else c :: sprintf format args

/-! ## package telegram: message text -/

/-- Go `telegram.Telegram`; the HTTP client and the logger are collaborators
of the environment. -/
structure Telegram where
  baseURL : GoString
  chatID : GoString
deriving DecidableEq

/-- Go `NewTelegram`. -/
def NewTelegram (botToken chatID : GoString) : Telegram :=
  { baseURL := sprintf (lit "https://api.telegram.org/bot%v") [botToken], chatID := chatID }

/-- Go `(*Telegram).formatTelegramMessageText`. -/
def formatTelegramMessageText (unicodeToUpper : Nat → Nat) (_t : Telegram) (n : Notification) :
    GoString :=
  sprintf (lit "%v on %v at %v\n\n%v")
    [markdownBold (ToUpper unicodeToUpper n.Level), markdownSafe n.CheckName,
      markdownSafe (formatRFC3339 n.Time), markdownSafe n.Message]

/-- The time `2024-01-02T03:04:05Z` of the scenarios. -/
def scenarioTime : Time :=
  { year := 2024, month := 1, day := 2, hour := 3, min := 4, sec := 5, nsec := 0, offset := 0 }

/-- The notification of scenario 1. -/
def scenarioNotification : Notification :=
  { CheckID := lit "1", CheckName := lit "disk", Level := lit "critical",
    Message := lit "disk full", Time := scenarioTime, Type_ := lit "alert" }

/-- A delivery client for the scenarios. -/
def scenarioTelegram : Telegram := NewTelegram (lit "TOKEN") (lit "42")

/-! ## Errors, JSON values, events -/

/-- A Go `error` value. -/
inductive GoError
  /-- The package variable `telegram.ErrTelegramBadStatus`. -/
  | errTelegramBadStatus
  /-- An error returned by the standard library (encoding/json, net/http, time). -/
  | external (msg : String)
  /-- The error `fmt.Errorf(msg + ": %w", cause)`. -/
  | wrapped (msg : String) (cause : GoError)
deriving DecidableEq

/-- A JSON value as the decoder of encoding/json reads it; strings are the
unquoted values, a number keeps its literal text. -/
inductive JSON
  | null
  | bool (b : Bool)
  | number (text : GoString)
  | string (s : GoString)
  | array (elems : List JSON)
  | object (members : List (GoString × JSON))

/-- Go `proxy.errorResponseJSON` and `proxy.successResponseJSON`, the two values
handed to `json.NewEncoder(w).Encode`. -/
inductive ResponseJSON
  | errorResponseJSON (Error : GoString)
  | successResponseJSON (Message : GoString)
deriving DecidableEq

/-- The JSON document a response value encodes to (struct tags `error` and
`message`). -/
def ResponseJSON.toJSON : ResponseJSON → JSON
  | .errorResponseJSON e => .object [(lit "error", .string e)]
  | .successResponseJSON m => .object [(lit "message", .string m)]

/-- Go `telegram.telegramRequestBodyJSON`. -/
structure telegramRequestBodyJSON where
  ChatID : GoString
  Text : GoString
  ParseMode : GoString
deriving DecidableEq

/-- An outbound `*http.Request`: method, URL, header and body. -/
structure HTTPRequest where
  method : GoString
  url : GoString
  header : List (GoString × GoString)
  body : GoString
deriving DecidableEq

/-- An `*http.Response`: the status code, and what
`json.NewDecoder(resp.Body).Decode(&untypedResponse)` reads from the body
(`none` when decoding fails). -/
structure HTTPResponse where
  StatusCode : Int
  body : Option JSON

/-- The collaborators of the core: the standard-library table `unicode.ToUpper`,
`json.Marshal` on the request body, the error (if any) of
`http.NewRequestWithContext` for a method and URL, the HTTP client called with
the request's context (a cancelled context or a transport failure is an error
of `clientDo`), and the error (if any) of encoding a response to the
`http.ResponseWriter`. -/
structure Env where
  unicodeToUpper : Nat → Nat
  jsonMarshal : telegramRequestBodyJSON → Except GoError GoString
  newRequestError : GoString → GoString → Option GoError
  clientDo : HTTPRequest → Except GoError HTTPResponse
  encodeError : Option GoError

/-- The observable calls of the core, in order: log records, the entry into the
delivery client, the outbound HTTP call, and the calls on the response writer. -/
inductive Event
  | logError (msg : String)
  | logInfo (msg : String)
  | sendNotificationMessage (n : Notification)
  | httpDo (req : HTTPRequest)
  | setHeader (key value : GoString)
  | writeHeader (status : Nat)
  | encode (body : ResponseJSON)
deriving DecidableEq

/-- Whether an event is an entry into `SendNotificationMessage`. -/
def Event.isSend : Event → Bool
  | .sendNotificationMessage _ => true
  | _ => false

/-- Whether an event is an outbound HTTP call. -/
def Event.isHTTPDo : Event → Bool
  | .httpDo _ => true
  | _ => false

/-- Whether an event is a call on the `http.ResponseWriter`. -/
def Event.isResponse : Event → Bool
  | .setHeader _ _ => true
  | .writeHeader _ => true
  | .encode _ => true
  | _ => false

/-! ## package telegram: delivery -/

/-- Go `(*Telegram).SendNotificationMessage`: the returned error (`none` for
`nil`) and the calls made. -/
def SendNotificationMessage (env : Env) (t : Telegram) (n : Notification) :
    Option GoError × List Event :=
  let telegramMessageText := formatTelegramMessageText env.unicodeToUpper t n
  let j : telegramRequestBodyJSON :=
    { ChatID := t.chatID, Text := telegramMessageText, ParseMode := lit "MarkdownV2" }
  match env.jsonMarshal j with
  | .error err =>
    (some (.wrapped "error marshaling telegram request json" err),
      [.sendNotificationMessage n])
  | .ok bodyBytes =>
    match env.newRequestError (lit "POST") (t.baseURL ++ lit "/sendMessage") with
    | some err =>
      (some (.wrapped "error creating http request instance" err),
        [.sendNotificationMessage n, .logError "error creating http request instance"])
    | none =>
      let req : HTTPRequest :=
        { method := lit "POST", url := t.baseURL ++ lit "/sendMessage",
          header := [(lit "Content-Type", lit "application/json")], body := bodyBytes }
      match env.clientDo req with
      | .error err =>
        (some (.wrapped "error making telegram HTTP request" err),
          [.sendNotificationMessage n, .httpDo req,
            .logError "error making telegram HTTP request"])
      | .ok resp =>
        if resp.StatusCode < 200 ∨ resp.StatusCode ≥ 400 then
          (some .errTelegramBadStatus,
            [.sendNotificationMessage n, .httpDo req]
              ++ (match resp.body with
                  | none => [.logError "error decoding bad response body"]
                  | some _ => [])
              ++ [.logError "bad telegram bot api status code"])
        else (none, [.sendNotificationMessage n, .httpDo req])

/-! ## Standard library: `time.Parse(time.RFC3339, value)` -/

/-- Go `isDigit(s, i)` of package time. -/
def isDigit (s : GoString) (i : Nat) : Bool :=
  match s.get? i with
  | some c => decide (0x30 ≤ c.val ∧ c.val ≤ 0x39)
  | none => false

/-- The value of the ASCII digit `s[i]` (`s[i] - '0'`). -/
def digitAt (s : GoString) (i : Nat) : Nat :=
  match s.get? i with
  | some c => c.val - 0x30
  | none => 0

/-- Go `getnum(s, fixed)`: one or two leading digits (`fixed` forces two) as a
number, and the rest of the string. -/
def getnum (s : GoString) (fixed : Bool) : Option (Nat × GoString) :=
  if !isDigit s 0 then none
  else if !isDigit s 1 then
    if fixed then none else some (digitAt s 0, s.drop 1)
  else some (digitAt s 0 * 10 + digitAt s 1, s.drop 2)

/-- Go `skip(value, prefix)` for a one-byte literal of the layout. -/
def skipByte (c : Byte) (value : GoString) : Option GoString :=
  match value with
  | v0 :: rest => if v0 = c then some rest else none
  | [] => none

/-- Layout element `2006`: exactly four digits. -/
def parseYear (value : GoString) : Option (Int × GoString) :=
  if isDigit value 0 && isDigit value 1 && isDigit value 2 && isDigit value 3 then
    some (((digitAt value 0 * 1000 + digitAt value 1 * 100 + digitAt value 2 * 10
      + digitAt value 3 : Nat) : Int), value.drop 4)
  else none

/-- The value of a list of ASCII digits. -/
def digitsValue (ds : GoString) : Nat := ds.foldl (fun acc c => acc * 10 + (c.val - 0x30)) 0

/-- The fractional second that `Parse` accepts after the seconds although the
layout has none: a period or comma followed by at least one digit; all digits are
consumed and the first nine give the nanoseconds (`parseNanoseconds`). -/
def parseFraction (value : GoString) : Nat × GoString :=
  match value with
  | sep :: rest =>
    if (sep = 0x2E ∨ sep = 0x2C) ∧ isDigit rest 0 then
      let digits := rest.takeWhile (fun c => decide (0x30 ≤ c.val ∧ c.val ≤ 0x39))
      let used := digits.take 9
      (digitsValue used * 10 ^ (9 - used.length), rest.drop digits.length)
    else (0, value)
  | [] => (0, value)

/-- Layout element `Z07:00`: `Z` for UTC, otherwise a sign, two digits, a colon
and two digits; hours above 24 or minutes above 60 are out of range.  The result
is the offset in seconds and the rest of the string. -/
def parseZone (value : GoString) : Option (Int × GoString) :=
  match value with
  | [] => none
  | v0 :: _ =>
    if v0 = 0x5A then some (0, value.drop 1)
    else if value.length < 6 then none
    else if value.get? 3 ≠ some 0x3A then none
    else
      match getnum ((value.drop 1).take 2) true, getnum ((value.drop 4).take 2) true with
      | some (hr, _), some (mm, _) =>
        if hr > 24 ∨ mm > 60 then none
        else
          let zoneOffset : Int := ((hr * 60 + mm) * 60 : Nat)
          if v0 = 0x2B then some (zoneOffset, value.drop 6)
          else if v0 = 0x2D then some (-zoneOffset, value.drop 6)
          else none
      | _, _ => none

/-- Go `isLeap`. -/
def isLeap (year : Int) : Bool := year % 4 = 0 ∧ (year % 100 ≠ 0 ∨ year % 400 = 0)

/-- Go `daysIn(m, year)`. -/
def daysIn (month : Nat) (year : Int) : Nat :=
  if month = 2 then (if isLeap year then 29 else 28)
  else if month = 4 ∨ month = 6 ∨ month = 9 ∨ month = 11 then 30
  else 31

/-- Go `time.Parse(time.RFC3339, value)`, the general layout-driven parser on
the layout `2006-01-02T15:04:05Z07:00` (Go 1.20 and later): four-digit year,
two-digit month, day, minute and second, an hour of one or two digits, an
optional fractional second, and a zone; the fields are range-checked and the day
is checked against the month.  `none` stands for a `*time.ParseError`. -/
def timeParse (value : GoString) : Option Time := do
  let (year, v) ← parseYear value
  let v ← skipByte 0x2D v
  let (month, v) ← getnum v true
  if month = 0 ∨ 12 < month then none
  let v ← skipByte 0x2D v
  let (day, v) ← getnum v true
  let v ← skipByte 0x54 v
  let (hour, v) ← getnum v false
  if 24 ≤ hour then none
  let v ← skipByte 0x3A v
  let (min, v) ← getnum v true
  if 60 ≤ min then none
  let v ← skipByte 0x3A v
  let (sec, v) ← getnum v true
  if 60 ≤ sec then none
  let (nsec, v) := parseFraction v
  let (offset, v) ← parseZone v
  if v ≠ [] then none
  if day < 1 ∨ day > daysIn month year then none
  some { year := year, month := month, day := day, hour := hour, min := min, sec := sec,
         nsec := nsec, offset := offset }

/-! ## package proxy -/

/-- Go `proxy.notificationJSON`; the zero value has six empty strings. -/
structure notificationJSON where
  CheckID : GoString := []
  CheckName : GoString := []
  Level : GoString := []
  Message : GoString := []
  Time : GoString := []
  Type_ : GoString := []
deriving DecidableEq

/-- The six fields of `notificationJSON`, in declaration order. -/
inductive Field
  | CheckID | CheckName | Level | Message | Time | Type_
deriving DecidableEq

/-- The JSON key of a field, from its struct tag. -/
def Field.key : Field → GoString
  | .CheckID => lit "_check_id"
  | .CheckName => lit "_check_name"
  | .Level => lit "_level"
  | .Message => lit "_message"
  | .Time => lit "_time"
  | .Type_ => lit "_type"

def structFields : List Field :=
  [.CheckID, .CheckName, .Level, .Message, .Time, .Type_]

/-- Reading a field of the struct. -/
def notificationJSON.get (j : notificationJSON) : Field → GoString
  | .CheckID => j.CheckID
  | .CheckName => j.CheckName
  | .Level => j.Level
  | .Message => j.Message
  | .Time => j.Time
  | .Type_ => j.Type_

/-- Storing a string into a field of the struct. -/
def notificationJSON.set (j : notificationJSON) (f : Field) (s : GoString) : notificationJSON :=
  match f with
  | .CheckID => { j with CheckID := s }
  | .CheckName => { j with CheckName := s }
  | .Level => { j with Level := s }
  | .Message => { j with Message := s }
  | .Time => { j with Time := s }
  | .Type_ => { j with Type_ := s }

/-- Two runes equal under Unicode simple case folding, as `bytes.EqualFold`
compares them, when at least one of them is ASCII (every comparison with a field
key is): the two cases of an ASCII letter, and besides them U+212A KELVIN SIGN
for `k` and U+017F LATIN SMALL LETTER LONG S for `s`. -/
def foldEq (a b : Nat) : Bool :=
  let lo := min a b
  let hi := max a b
  if lo = hi then true
  else if hi < runeSelf then decide (0x41 ≤ lo ∧ lo ≤ 0x5A ∧ hi = lo + 0x20)
  else decide (((lo = 0x4B ∨ lo = 0x6B) ∧ hi = 0x212A) ∨ ((lo = 0x53 ∨ lo = 0x73) ∧ hi = 0x17F))

/-- Go `bytes.EqualFold(s, t)` with `foldEq` on runes. -/
def equalFold (s t : GoString) : Bool :=
  let rs := rangeRunes s
  let rt := rangeRunes t
  decide (rs.length = rt.length) && (List.zipWith foldEq rs rt).all id

/-- The struct field a JSON object key is decoded into: the field whose key is
the same, otherwise the first field whose key is the same under case folding;
`none` for a key that is ignored. -/
def findField (key : GoString) : Option Field :=
  match structFields.find? (fun f => decide (f.key = key)) with
  | some f => some f
  | none => structFields.find? (fun f => equalFold f.key key)

/-- The decoder state while an object is read into the struct: the struct so
far and the first saved error (`d.saveError`). -/
structure DecodeState where
  j : notificationJSON
  savedError : Option GoError

/-- One member of the object: a key that names no field is skipped; a string
is stored; `null` has no effect on a string field; a number, boolean, array or
object saves an `UnmarshalTypeError` (the first one is kept) and the field is
skipped. -/
def decodeMember (st : DecodeState) (member : GoString × JSON) : DecodeState :=
  match findField member.1 with
  | none => st
  | some f =>
    match member.2 with
    | .string s => { st with j := st.j.set f s }
    | .null => st
    | _ =>
      match st.savedError with
      | some _ => st
      | none =>
        { st with savedError := some (.external "json: cannot unmarshal value into Go struct field of type string") }

/-- An object read into a zero `notificationJSON`, member by member in order. -/
def decodeObject (members : List (GoString × JSON)) : DecodeState :=
  members.foldl decodeMember { j := {}, savedError := none }

/-- An inbound `*http.Request`: what `json.NewDecoder(r.Body)` reads as the
first JSON value of the body (`none` for a syntax or read error). -/
structure Request where
  body : Option JSON

/-- Go `json.NewDecoder(r.Body).Decode(j)` with `j` a zero `notificationJSON`:
an object is decoded member by member, `null` leaves the struct untouched, any
other value is an `UnmarshalTypeError`. -/
def decodeNotificationJSON (r : Request) : Except GoError notificationJSON :=
  match r.body with
  | none => .error (.external "json: syntax error or read error")
  | some .null => .ok {}
  | some (.object members) =>
    match (decodeObject members).savedError with
    | some err => .error err
    | none => .ok (decodeObject members).j
  | some _ => .error (.external "json: cannot unmarshal value into Go value of type proxy.notificationJSON")

/-- Go `(*notificationJSON).parse`. -/
def notificationJSON.parse (j : notificationJSON) : Except GoError Notification :=
  match timeParse j.Time with
  | none => .error (.wrapped "error parsing RFC3339 time" (.external "parsing time"))
  | some t =>
    .ok { CheckID := j.CheckID, CheckName := j.CheckName, Level := j.Level,
          Message := j.Message, Time := t, Type_ := j.Type_ }

/-- Go `(*Application).parseNotification`: the result and the log records. -/
def parseNotification (r : Request) : Except GoError Notification × List Event :=
  match decodeNotificationJSON r with
  | .error err =>
    (.error (.wrapped "error unmarshaling request json" err),
      [.logError "error unmarshaling request json"])
  | .ok j => (j.parse, [])

/-- Go `proxy.Application`; the logger is a collaborator. -/
structure Application where
  telegram : Telegram

/-- Go `NewApplication`. -/
def NewApplication (telegram : Telegram) : Application := { telegram := telegram }

/-- Go `(*Application).writeError`. -/
def writeError (env : Env) (status : Nat) (message : GoString) : List Event :=
  [.setHeader (lit "Content-Type") (lit "application/json"), .writeHeader status,
    .encode (.errorResponseJSON message)]
    ++ (match env.encodeError with
        | some _ => [.logError "error writing json response"]
        | none => [])

/-- Go `(*Application).writeSuccess`. -/
def writeSuccess (env : Env) (status : Nat) (message : GoString) : List Event :=
  [.setHeader (lit "Content-Type") (lit "application/json"), .writeHeader status,
    .encode (.successResponseJSON message)]
    ++ (match env.encodeError with
        | some _ => [.logError "error writing json response"]
        | none => [])

/-- Go `http.StatusBadRequest`. -/
def StatusBadRequest : Nat := 400

/-- Go `http.StatusInternalServerError`. -/
def StatusInternalServerError : Nat := 500

/-- Go `http.StatusOK`. -/
def StatusOK : Nat := 200

/-- Go `(*Application).handler`: the calls it makes, in order. -/
def handler (env : Env) (a : Application) (r : Request) : List Event :=
  match parseNotification r with
  | (.error _, parseEvents) =>
    parseEvents ++ writeError env StatusBadRequest (lit "request parse error")
  | (.ok n, parseEvents) =>
    match SendNotificationMessage env a.telegram n with
    | (some _, sendEvents) =>
      parseEvents ++ [.logInfo "received notification"] ++ sendEvents
        ++ [.logInfo "telegram send error"]
        ++ writeError env StatusInternalServerError (lit "telegram send error")
    | (none, sendEvents) =>
      parseEvents ++ [.logInfo "received notification"] ++ sendEvents
        ++ writeSuccess env StatusOK (lit "sent to telegram")

/-! ## The parser's contract, in the specification's terms -/

/-- The string a member gives to field `f`: its value when the value is a
string and its key names `f` (exactly or under case folding). -/
def stringFor (f : Field) (member : GoString × JSON) : Option GoString :=
  match member.2 with
  | .string s => if findField member.1 = some f then some s else none
  | _ => none

/-- The value an object gives to field `f`: the value of its last
string-valued member whose key names `f`, the empty string when there is none. -/
def fieldValue (members : List (GoString × JSON)) (f : Field) : GoString :=
  ((members.filterMap (stringFor f)).getLast?).getD []

/-- Whether a JSON value is a string. -/
def JSON.isString : JSON → Bool
  | .string _ => true
  | _ => false

/-- A member whose key names a field and whose value is neither a string nor
`null`. -/
def typeMismatch (member : GoString × JSON) : Bool :=
  (findField member.1).isSome &&
    (match member.2 with
     | .string _ => false
     | .null => false
     | _ => true)

/-- The six members of the scenarios' payload with a given `_time` value. -/
def scenarioMembers (time : GoString) : List (GoString × JSON) :=
  [(lit "_check_id", .string (lit "1")), (lit "_check_name", .string (lit "disk")),
    (lit "_level", .string (lit "critical")), (lit "_message", .string (lit "disk full")),
    (lit "_time", .string time), (lit "_type", .string (lit "alert"))]

/-- The JSON string literal `json.Marshal` writes for a text made of printable
ASCII other than `<`, `>` and `&`, and of newlines: double quotes around it, a
backslash before a double quote and before a backslash, and `\n` for a newline. -/
def scenarioQuote (s : GoString) : GoString :=
  lit "\"" ++ s.flatMap (fun c =>
      if c = 0x22 ∨ c = 0x5C then [0x5C, c] else if c = 0x0A then [0x5C, 0x6E] else [c])
    ++ lit "\""

/-- The `json.Marshal` of the scenarios' request body, whose three strings are
texts `scenarioQuote` covers: the object of `chat_id`, `text` and `parse_mode`. -/
def scenarioMarshal (j : telegramRequestBodyJSON) : Except GoError GoString :=
  .ok (lit "\x7b\"chat_id\":" ++ scenarioQuote j.ChatID ++ lit ",\"text\":"
    ++ scenarioQuote j.Text ++ lit ",\"parse_mode\":" ++ scenarioQuote j.ParseMode
    ++ lit "\x7d")

/-- The environment of the scenarios: the outbound request is built, and the
HTTP call has the given result. -/
def scenarioEnv (result : Except GoError HTTPResponse) : Env :=
  { unicodeToUpper := fun r => r, jsonMarshal := scenarioMarshal,
    newRequestError := fun _ _ => none, clientDo := fun _ => result, encodeError := none }

/-- The request body `SendNotificationMessage` marshals. -/
def outboundBody (env : Env) (t : Telegram) (n : Notification) : telegramRequestBodyJSON :=
  { ChatID := t.chatID, Text := formatTelegramMessageText env.unicodeToUpper t n,
    ParseMode := lit "MarkdownV2" }

/-- The request `SendNotificationMessage` hands to the HTTP client. -/
def outboundRequest (t : Telegram) (bodyBytes : GoString) : HTTPRequest :=
  { method := lit "POST", url := t.baseURL ++ lit "/sendMessage",
    header := [(lit "Content-Type", lit "application/json")], body := bodyBytes }

/-- The calls on the response writer among a list of events. -/
def responseCalls (events : List Event) : List Event := events.filter Event.isResponse

/-- The calls that write one response: the `Content-Type` header, the status
line, and the body handed to the encoder. -/
def response (status : Nat) (body : ResponseJSON) : List Event :=
  [.setHeader (lit "Content-Type") (lit "application/json"), .writeHeader status, .encode body]

/-- The inbound request of the scenarios with a given `_time` value. -/
def scenarioRequest (time : GoString) : Request :=
  { body := some (.object (scenarioMembers time)) }

/-- The application of the scenarios. -/
def scenarioApplication : Application := NewApplication scenarioTelegram

/-! ## Date-time texts: RFC 3339 and what `time.Parse` accepts -/

/-- The ASCII digit of a number below ten. -/
def digit (d : Nat) : Byte := byte (0x30 + d)

/-- A number below 100 written with two digits. -/
def twoDigits (n : Nat) : GoString := [digit (n / 10), digit (n % 10)]

/-- A number below 10000 written with four digits. -/
def fourDigits (n : Nat) : GoString :=
  [digit (n / 1000), digit (n / 100 % 10), digit (n / 10 % 10), digit (n % 10)]

/-- The zone of a date-time text: the letter of UTC (`Z` or `z`), or a sign,
hours and minutes. -/
inductive ZoneText
  | utc (letter : Byte)
  | offset (negative : Bool) (hour minute : Nat)
deriving DecidableEq

/-- The parts of a date-time text `YYYY-MM-DD`, a separator, `HH:MM:SS`, an
optional fraction of a second (its separator and digits), and a zone.
`shortHour` says the hour is written with one digit. -/
structure DateTimeText where
  year : Nat
  month : Nat
  day : Nat
  separator : Byte
  hour : Nat
  shortHour : Bool
  minute : Nat
  second : Nat
  fraction : Option (Byte × List Nat)
  zone : ZoneText
deriving DecidableEq

/-- The text of a zone. -/
def ZoneText.render : ZoneText → GoString
  | .utc letter => [letter]
  | .offset negative hour minute =>
    (if negative then 0x2D else 0x2B) :: (twoDigits hour ++ 0x3A :: twoDigits minute)

/-- The text of a fraction of a second. -/
def renderFraction : Option (Byte × List Nat) → GoString
  | none => []
  | some (sep, ds) => sep :: ds.map digit

/-- The text of a date-time. -/
def DateTimeText.render (f : DateTimeText) : GoString :=
  fourDigits f.year ++ 0x2D :: (twoDigits f.month ++ 0x2D :: (twoDigits f.day ++ f.separator ::
    ((if f.shortHour then [digit f.hour] else twoDigits f.hour) ++ 0x3A :: (twoDigits f.minute
      ++ 0x3A :: (twoDigits f.second ++ (renderFraction f.fraction ++ f.zone.render))))))

/-- The nanoseconds of a fraction's digits: the first nine digits count. -/
def nanoseconds (ds : List Nat) : Nat :=
  (ds.take 9).foldl (fun acc d => acc * 10 + d) 0 * 10 ^ (9 - (ds.take 9).length)

/-- The offset of a zone in seconds east of UTC. -/
def ZoneText.seconds : ZoneText → Int
  | .utc _ => 0
  | .offset negative hour minute =>
    if negative then -(((hour * 60 + minute) * 60 : Nat) : Int)
    else (((hour * 60 + minute) * 60 : Nat) : Int)

/-- The nanoseconds of an optional fraction. -/
def fractionNanoseconds : Option (Byte × List Nat) → Nat
  | none => 0
  | some (_, ds) => nanoseconds ds

/-- The time a date-time text denotes, to the nanosecond. -/
def DateTimeText.toTime (f : DateTimeText) : Time :=
  { year := f.year, month := f.month, day := f.day, hour := f.hour, min := f.minute,
    sec := f.second, nsec := fractionNanoseconds f.fraction, offset := f.zone.seconds }

/-- The fields common to RFC 3339 and to `time.Parse`: a year of four digits, a
month, a day of that month, an hour below 24, a minute below 60. -/
def DateTimeText.inRange (f : DateTimeText) : Prop :=
  f.year ≤ 9999 ∧ 1 ≤ f.month ∧ f.month ≤ 12 ∧ 1 ≤ f.day ∧ f.day ≤ daysIn f.month f.year
    ∧ f.hour ≤ 23 ∧ f.minute ≤ 59

/-- A fraction of a second of RFC 3339: a period and at least one digit. -/
def fractionRFC3339 : Option (Byte × List Nat) → Prop
  | none => True
  | some (sep, ds) => sep = 0x2E ∧ ds ≠ [] ∧ ∀ d ∈ ds, d ≤ 9

/-- A fraction of a second as `time.Parse` accepts it: a period or a comma and
at least one digit. -/
def fractionAccepted : Option (Byte × List Nat) → Prop
  | none => True
  | some (sep, ds) => (sep = 0x2E ∨ sep = 0x2C) ∧ ds ≠ [] ∧ ∀ d ∈ ds, d ≤ 9

/-- A zone of RFC 3339: `Z` or `z`, or an offset of hours up to 23 and minutes up
to 59. -/
def ZoneText.isRFC3339 : ZoneText → Prop
  | .utc letter => letter = 0x5A ∨ letter = 0x7A
  | .offset _ hour minute => hour ≤ 23 ∧ minute ≤ 59

/-- A zone as `time.Parse` accepts it: `Z`, or an offset of hours up to 24 and
minutes up to 60. -/
def ZoneText.accepted : ZoneText → Prop
  | .utc letter => letter = 0x5A
  | .offset _ hour minute => hour ≤ 24 ∧ minute ≤ 60

/-- A date-time of RFC 3339 (section 5.6): `T` or `t` between date and time, a
two-digit hour, a second up to 60 (a leap second), a fraction introduced by a
period, and a zone `Z` or `z` or an offset of hours up to 23 and minutes up to
59. -/
def DateTimeText.isRFC3339 (f : DateTimeText) : Prop :=
  f.inRange ∧ (f.separator = 0x54 ∨ f.separator = 0x74) ∧ f.shortHour = false
    ∧ f.second ≤ 60 ∧ fractionRFC3339 f.fraction ∧ f.zone.isRFC3339

/-- A date-time text in the form `time.Parse` accepts under the layout
`time.RFC3339`: `T` between date and time, an hour of two digits or of one
digit, a second up to 59, a fraction introduced by a period or a comma, and a
zone `Z` or an offset of hours up to 24 and minutes up to 60. -/
def DateTimeText.accepted (f : DateTimeText) : Prop :=
  f.inRange ∧ f.separator = 0x54 ∧ (f.shortHour = true → f.hour ≤ 9)
    ∧ f.second ≤ 59 ∧ fractionAccepted f.fraction ∧ f.zone.accepted

instance (f : DateTimeText) : Decidable f.inRange := by
  unfold DateTimeText.inRange; infer_instance

instance (fr : Option (Byte × List Nat)) : Decidable (fractionRFC3339 fr) := by
  unfold fractionRFC3339; split <;> infer_instance

instance (fr : Option (Byte × List Nat)) : Decidable (fractionAccepted fr) := by
  unfold fractionAccepted; split <;> infer_instance

instance (z : ZoneText) : Decidable z.isRFC3339 := by
  unfold ZoneText.isRFC3339; split <;> infer_instance

instance (z : ZoneText) : Decidable z.accepted := by
  unfold ZoneText.accepted; split <;> infer_instance

instance (f : DateTimeText) : Decidable f.isRFC3339 := by
  unfold DateTimeText.isRFC3339; infer_instance

instance (f : DateTimeText) : Decidable f.accepted := by
  unfold DateTimeText.accepted; infer_instance

/-- The RFC 3339 text `1990-12-31T23:59:60Z`, a leap second. -/
def leapSecondText : DateTimeText :=
  { year := 1990, month := 12, day := 31, separator := 0x54, hour := 23, shortHour := false,
    minute := 59, second := 60, fraction := none, zone := .utc 0x5A }

/-- The RFC 3339 text `2024-01-02t03:04:05z`, in lower case. -/
def lowerCaseText : DateTimeText :=
  { year := 2024, month := 1, day := 2, separator := 0x74, hour := 3, shortHour := false,
    minute := 4, second := 5, fraction := none, zone := .utc 0x7A }

/-- The RFC 3339 text `2024-01-02T03:04:05Z` of the scenarios. -/
def scenarioTimeText : DateTimeText :=
  { year := 2024, month := 1, day := 2, separator := 0x54, hour := 3, shortHour := false,
    minute := 4, second := 5, fraction := none, zone := .utc 0x5A }

/-- A date-time text written in upper case: `T` between date and time, and no
lower-case `z` for the zone. -/
def DateTimeText.upperCase (f : DateTimeText) : Prop :=
  f.separator = 0x54 ∧ f.zone ≠ .utc 0x7A

instance (f : DateTimeText) : Decidable f.upperCase := by
  unfold DateTimeText.upperCase; infer_instance

/-! ## UTF-8 lemmas -/

theorem rangeRunesAux_fuel (fuel : Nat) :
    ∀ s : GoString, s.length ≤ fuel → rangeRunesAux fuel s = rangeRunesAux s.length s := by
  induction fuel using Nat.strong_induction_on with
  | _ fuel ih =>
    intro s hs
    cases s with
    | nil => cases fuel <;> rfl
    | cons s0 rest =>
      cases fuel with
      | zero => simp at hs
      | succ fuel =>
        simp only [List.length_cons, rangeRunesAux]
        have hlen : (rest.drop ((rangeStep s0 rest).2 - 1)).length ≤ rest.length := by
          simp [List.length_drop]
        have hrest : rest.length ≤ fuel := by simpa using hs
        rw [ih fuel (Nat.lt_succ_self _) _ (le_trans hlen hrest),
          ih rest.length (Nat.lt_succ_of_le hrest) _ hlen]

theorem rangeRunes_nil : rangeRunes [] = [] := rfl

theorem rangeRunes_cons (s0 : Byte) (rest : GoString) :
    rangeRunes (s0 :: rest) =
      (rangeStep s0 rest).1 :: rangeRunes (rest.drop ((rangeStep s0 rest).2 - 1)) := by
  unfold rangeRunes
  simp only [List.length_cons, rangeRunesAux]
  rw [rangeRunesAux_fuel rest.length _ (by simp [List.length_drop])]

theorem rangeRunesAux_length_le (fuel : Nat) :
    ∀ s : GoString, (rangeRunesAux fuel s).length ≤ fuel := by
  induction fuel with
  | zero => intro s; simp [rangeRunesAux]
  | succ fuel ih =>
    intro s
    cases s with
    | nil => simp [rangeRunesAux]
    | cons s0 rest =>
      simp only [rangeRunesAux, List.length_cons]
      exact Nat.succ_le_succ (ih _)

theorem rangeRunes_length_le (s : GoString) : (rangeRunes s).length ≤ s.length :=
  rangeRunesAux_length_le s.length s

theorem byte_val (x : Nat) : (byte x).val = x % 256 := rfl

theorem rangeRunes_encoderune (r : Nat) (hr : validRune r) (rest : GoString) :
    rangeRunes (encoderune r ++ rest) = r :: rangeRunes rest := by
  unfold validRune surrogateMin surrogateMax maxRune at hr
  unfold encoderune
  simp only [rune1Max, rune2Max, rune3Max, maxRune, surrogateMin, surrogateMax]
  split
  · rename_i h1
    simp only [List.singleton_append, rangeRunes_cons, rangeStep, byte_val, runeSelf]
    have e : r % 256 = r := by omega
    have h : r < 128 := by omega
    simp only [e, h, if_true, Nat.sub_self, List.drop_zero]
  · split
    · rename_i h1 h2
      simp only [List.cons_append, List.nil_append, rangeRunes_cons, rangeStep, byte_val,
        runeSelf, decoderune, contByte, t2, t3, locb, hicb, rune1Max, List.get?_cons_succ,
        List.get?_cons_zero]
      have e0 : (0xC0 + r / 64) % 256 = 0xC0 + r / 64 := by omega
      have e1 : (0x80 + r % 64) % 256 = 0x80 + r % 64 := by omega
      simp only [e0, e1]
      have c0 : ¬ (0xC0 + r / 64 < 128) := by omega
      have c1 : 0xC0 ≤ 0xC0 + r / 64 ∧ 0xC0 + r / 64 < 0xE0 := by omega
      have c2 : 0x80 ≤ 0x80 + r % 64 ∧ 0x80 + r % 64 ≤ 0xBF := by omega
      have e : (0xC0 + r / 64) % 32 * 64 + (0x80 + r % 64) % 64 = r := by omega
      have c3 : 0x7F < r := by omega
      simp only [c0, c1, c2, e, c3, if_true, if_false, and_self]
      rfl
    · split
      · omega
      · split
        · rename_i h1 h2 h3 h4
          simp only [List.cons_append, List.nil_append, rangeRunes_cons, rangeStep, byte_val,
            runeSelf, decoderune, contByte, t2, t3, t4, locb, hicb, rune2Max, surrogateMin,
            surrogateMax, List.get?_cons_succ, List.get?_cons_zero]
          have e0 : (0xE0 + r / 4096) % 256 = 0xE0 + r / 4096 := by omega
          have e1 : (0x80 + r / 64 % 64) % 256 = 0x80 + r / 64 % 64 := by omega
          have e2 : (0x80 + r % 64) % 256 = 0x80 + r % 64 := by omega
          simp only [e0, e1, e2]
          have c0 : ¬ (0xE0 + r / 4096 < 128) := by omega
          have c1 : ¬ (0xC0 ≤ 0xE0 + r / 4096 ∧ 0xE0 + r / 4096 < 0xE0) := by omega
          have c2 : 0xE0 ≤ 0xE0 + r / 4096 ∧ 0xE0 + r / 4096 < 0xF0 := by omega
          have c3 : 0x80 ≤ 0x80 + r / 64 % 64 ∧ 0x80 + r / 64 % 64 ≤ 0xBF := by omega
          have c4 : 0x80 ≤ 0x80 + r % 64 ∧ 0x80 + r % 64 ≤ 0xBF := by omega
          have e : (0xE0 + r / 4096) % 16 * 4096 + (0x80 + r / 64 % 64) % 64 * 64
              + (0x80 + r % 64) % 64 = r := by omega
          have c5 : 0x7FF < r ∧ ¬ (0xD800 ≤ r ∧ r ≤ 0xDFFF) := by omega
          simp only [c0, c1, c2, c3, c4, e, c5, if_true, if_false, and_self]
          rfl
        · rename_i h1 h2 h3 h4
          simp only [List.cons_append, List.nil_append, rangeRunes_cons, rangeStep, byte_val,
            runeSelf, decoderune, contByte, t2, t3, t4, t5, locb, hicb, rune3Max, maxRune,
            List.get?_cons_succ, List.get?_cons_zero]
          have e0 : (0xF0 + r / 262144) % 256 = 0xF0 + r / 262144 := by omega
          have e1 : (0x80 + r / 4096 % 64) % 256 = 0x80 + r / 4096 % 64 := by omega
          have e2 : (0x80 + r / 64 % 64) % 256 = 0x80 + r / 64 % 64 := by omega
          have e3 : (0x80 + r % 64) % 256 = 0x80 + r % 64 := by omega
          simp only [e0, e1, e2, e3]
          have c0 : ¬ (0xF0 + r / 262144 < 128) := by omega
          have c1 : ¬ (0xC0 ≤ 0xF0 + r / 262144 ∧ 0xF0 + r / 262144 < 0xE0) := by omega
          have c2 : ¬ (0xE0 ≤ 0xF0 + r / 262144 ∧ 0xF0 + r / 262144 < 0xF0) := by omega
          have c3 : 0xF0 ≤ 0xF0 + r / 262144 ∧ 0xF0 + r / 262144 < 0xF8 := by omega
          have c4 : 0x80 ≤ 0x80 + r / 4096 % 64 ∧ 0x80 + r / 4096 % 64 ≤ 0xBF := by omega
          have c5 : 0x80 ≤ 0x80 + r / 64 % 64 ∧ 0x80 + r / 64 % 64 ≤ 0xBF := by omega
          have c6 : 0x80 ≤ 0x80 + r % 64 ∧ 0x80 + r % 64 ≤ 0xBF := by omega
          have e : (0xF0 + r / 262144) % 8 * 262144 + (0x80 + r / 4096 % 64) % 64 * 4096
              + (0x80 + r / 64 % 64) % 64 * 64 + (0x80 + r % 64) % 64 = r := by omega
          have c7 : 0xFFFF < r ∧ r ≤ 0x10FFFF := by omega
          simp only [c0, c1, c2, c3, c4, c5, c6, e, c7, if_true, if_false, and_self]
          rfl

theorem rangeRunes_stringOfRunes (rs : List Nat) (h : ∀ r ∈ rs, validRune r) :
    rangeRunes (stringOfRunes rs) = rs := by
  induction rs with
  | nil => rfl
  | cons r rs ih =>
    have hr : validRune r := h r (List.mem_cons_self _ _)
    have hrs : ∀ x ∈ rs, validRune x := fun x hx => h x (List.mem_cons_of_mem _ hx)
    show rangeRunes (encoderune r ++ stringOfRunes rs) = r :: rs
    rw [rangeRunes_encoderune r hr, ih hrs]

theorem contByte_lt (s : GoString) (i c : Nat) (h : contByte s i = some c) : c < 64 := by
  unfold contByte at h
  split at h
  · split at h
    · cases h; omega
    · cases h
  · cases h

theorem validRune_runeError : validRune runeError := by decide

theorem decoderune_valid (s : GoString) : validRune (decoderune s).1 := by
  unfold decoderune
  split
  · exact validRune_runeError
  · rename_i s0 tl
    split
    · split
      · rename_i c1 h1
        have := contByte_lt _ _ _ h1
        dsimp only
        split
        · simp only [validRune, surrogateMin]
          left; omega
        · exact validRune_runeError
      · exact validRune_runeError
    · split
      · split
        · rename_i c1 c2 h1 h2
          have := contByte_lt _ _ _ h1
          have := contByte_lt _ _ _ h2
          dsimp only
          split
          · rename_i h
            simp only [validRune, surrogateMin, surrogateMax, maxRune] at h ⊢
            omega
          · exact validRune_runeError
        · exact validRune_runeError
      · split
        · split
          · dsimp only
            split
            · rename_i h
              simp only [validRune, surrogateMin, surrogateMax, maxRune, rune3Max] at h ⊢
              omega
            · exact validRune_runeError
          · exact validRune_runeError
        · exact validRune_runeError

theorem rangeStep_valid (s0 : Byte) (rest : GoString) : validRune (rangeStep s0 rest).1 := by
  unfold rangeStep
  split
  · rename_i h
    simp only [validRune, surrogateMin, runeSelf] at h ⊢
    left; omega
  · exact decoderune_valid _

theorem rangeRunesAux_valid (fuel : Nat) :
    ∀ (s : GoString) (r : Nat), r ∈ rangeRunesAux fuel s → validRune r := by
  induction fuel with
  | zero => intro s r h; simp [rangeRunesAux] at h
  | succ fuel ih =>
    intro s r h
    cases s with
    | nil => simp [rangeRunesAux] at h
    | cons s0 rest =>
      simp only [rangeRunesAux, List.mem_cons] at h
      rcases h with h | h
      · rw [h]; exact rangeStep_valid s0 rest
      · exact ih _ _ h

theorem rangeRunes_valid (s : GoString) : ∀ r ∈ rangeRunes s, validRune r :=
  fun r h => rangeRunesAux_valid s.length s r h

theorem rangeRunes_of_valid (s : GoString) (h : ValidUTF8 s) :
    stringOfRunes (rangeRunes s) = s := by
  obtain ⟨rs, hrs, rfl⟩ := h
  rw [rangeRunes_stringOfRunes rs hrs]

theorem validUTF8_iff (s : GoString) : ValidUTF8 s ↔ stringOfRunes (rangeRunes s) = s :=
  ⟨rangeRunes_of_valid s, fun h => ⟨rangeRunes s, rangeRunes_valid s, h⟩⟩

/-! ## Escaping lemmas -/

theorem markdownSafe_foldl (rs acc : List Nat) :
    rs.foldl (fun safe r => if 1 ≤ r ∧ r ≤ 126 then safe ++ [0x5C, r] else safe ++ [r]) acc
      = acc ++ rs.flatMap escapeRune := by
  induction rs generalizing acc with
  | nil => simp
  | cons r rs ih =>
    simp only [List.foldl_cons, List.flatMap_cons, ih, escapeRune]
    split <;> simp

theorem markdownSafeRunes_eq (text : GoString) :
    markdownSafeRunes text = (rangeRunes text).flatMap escapeRune := by
  unfold markdownSafeRunes
  rw [markdownSafe_foldl]
  rfl

theorem escapeRune_valid (c : Nat) (hc : validRune c) : ∀ x ∈ escapeRune c, validRune x := by
  intro x hx
  unfold escapeRune at hx
  split at hx
  · simp only [List.mem_cons, List.mem_singleton, List.not_mem_nil, or_false] at hx
    rcases hx with h | h
    · rw [h]; decide
    · rw [h]; exact hc
  · simp only [List.mem_singleton] at hx
    rw [hx]; exact hc

theorem flatMap_escapeRune_valid (rs : List Nat) (h : ∀ r ∈ rs, validRune r) :
    ∀ x ∈ rs.flatMap escapeRune, validRune x := by
  intro x hx
  rw [List.mem_flatMap] at hx
  obtain ⟨c, hc, hxc⟩ := hx
  exact escapeRune_valid c (h c hc) x hxc

theorem rangeRunes_markdownSafe (s : GoString) :
    rangeRunes (markdownSafe s) = (rangeRunes s).flatMap escapeRune := by
  unfold markdownSafe
  rw [markdownSafeRunes_eq]
  exact rangeRunes_stringOfRunes _ (flatMap_escapeRune_valid _ (rangeRunes_valid s))

theorem unescapeRunes_escape (rs : List Nat) :
    unescapeRunes (rs.flatMap escapeRune) = rs := by
  induction rs with
  | nil => rfl
  | cons c rs ih =>
    rw [List.flatMap_cons]
    by_cases hc : 1 ≤ c ∧ c ≤ 126
    · simp only [escapeRune, hc, and_self, if_true, List.cons_append, List.nil_append,
        unescapeRunes, ih]
    · simp only [escapeRune, hc, if_false, List.singleton_append]
      have hne : ¬ (c = 0x5C) := by omega
      cases hrest : rs.flatMap escapeRune with
      | nil =>
        rw [hrest] at ih
        cases rs with
        | nil => rfl
        | cons d ds => simp [unescapeRunes] at ih
      | cons d ds =>
        rw [hrest] at ih
        simp only [unescapeRunes, hne, if_false, ih]

theorem length_flatMap_escapeRune (rs : List Nat) :
    (rs.flatMap escapeRune).length = rs.length + escapedCount rs := by
  induction rs with
  | nil => rfl
  | cons c rs ih =>
    rw [List.flatMap_cons, List.length_append, ih]
    unfold escapedCount escapeRune
    by_cases hc : 1 ≤ c ∧ c ≤ 126
    · simp [hc, List.countP_cons]; omega
    · simp [hc, List.countP_cons]; omega

theorem escapedCount_le (rs : List Nat) : escapedCount rs ≤ rs.length :=
  List.countP_le_length _

theorem flatMap_escapeRune_none (rs : List Nat) (h : ∀ c ∈ rs, ¬ (1 ≤ c ∧ c ≤ 126)) :
    rs.flatMap escapeRune = rs := by
  induction rs with
  | nil => rfl
  | cons c rs ih =>
    have hc := h c (List.mem_cons_self _ _)
    rw [List.flatMap_cons, ih (fun x hx => h x (List.mem_cons_of_mem _ hx))]
    simp [escapeRune, hc]

theorem escapedCount_cons (c : Nat) (rs : List Nat) :
    escapedCount (c :: rs) = escapedCount rs + (if 1 ≤ c ∧ c ≤ 126 then 1 else 0) := by
  unfold escapedCount
  rw [List.countP_cons]
  by_cases hc : 1 ≤ c ∧ c ≤ 126 <;> simp [hc]

theorem length_escapeRune (c : Nat) :
    (escapeRune c).length = 1 + (if 1 ≤ c ∧ c ≤ 126 then 1 else 0) := by
  unfold escapeRune
  by_cases hc : 1 ≤ c ∧ c ≤ 126 <;> simp [hc]

theorem escapeRune_prefix_at (rs : List Nat) :
    ∀ (i c : Nat), rs.get? i = some c →
      escapeRune c <+: (rs.flatMap escapeRune).drop (i + escapedCount (rs.take i)) := by
  induction rs with
  | nil => intro i c h; simp at h
  | cons x xs ih =>
    intro i c h
    cases i with
    | zero =>
      simp only [List.get?_cons_zero, Option.some.injEq] at h
      subst h
      simp [escapedCount, List.flatMap_cons]
    | succ j =>
      simp only [List.get?_cons_succ] at h
      have key : j + 1 + escapedCount (List.take (j + 1) (x :: xs))
          = (escapeRune x).length + (j + escapedCount (xs.take j)) := by
        rw [List.take_succ_cons, escapedCount_cons, length_escapeRune]
        omega
      rw [key, List.flatMap_cons, List.drop_append]
      exact ih j c h

/-! ## Message text lemmas -/

theorem sprintf_four (a b c d : GoString) :
    sprintf (lit "%v on %v at %v\n\n%v") [a, b, c, d]
      = a ++ (lit " on " ++ (b ++ (lit " at " ++ (c ++ (lit "\n\n" ++ d))))) := by
  have hf : lit "%v on %v at %v\n\n%v"
      = [0x25, 0x76, 0x20, 0x6F, 0x6E, 0x20, 0x25, 0x76, 0x20, 0x61, 0x74, 0x20, 0x25, 0x76,
          0x0A, 0x0A, 0x25, 0x76] := by decide
  have h1 : lit " on " = [0x20, 0x6F, 0x6E, 0x20] := by decide
  have h2 : lit " at " = [0x20, 0x61, 0x74, 0x20] := by decide
  have h3 : lit "\n\n" = [0x0A, 0x0A] := by decide
  rw [hf, h1, h2, h3]
  simp [sprintf]

/-! ## Decoder lemmas -/

theorem get_set (j : notificationJSON) (f g : Field) (s : GoString) :
    (j.set g s).get f = if f = g then s else j.get f := by
  cases f <;> cases g <;> rfl

theorem typeMismatch_eq_false_iff (m : GoString × JSON) :
    typeMismatch m = false ↔
      findField m.1 = none ∨ (∃ s, m.2 = .string s) ∨ m.2 = .null := by
  obtain ⟨k, v⟩ := m
  unfold typeMismatch
  cases h : findField k <;> cases v <;> simp

theorem decodeMember_savedError (st : DecodeState) (m : GoString × JSON) :
    (decodeMember st m).savedError = none ↔ st.savedError = none ∧ typeMismatch m = false := by
  obtain ⟨k, v⟩ := m
  unfold decodeMember typeMismatch
  cases h : findField k with
  | none => simp
  | some f =>
    cases v <;> cases he : st.savedError <;> simp [he]

theorem foldl_decodeMember_savedError (ms : List (GoString × JSON)) :
    ∀ st : DecodeState, (ms.foldl decodeMember st).savedError = none ↔
      st.savedError = none ∧ ∀ m ∈ ms, typeMismatch m = false := by
  induction ms with
  | nil => intro st; simp
  | cons m ms ih =>
    intro st
    rw [List.foldl_cons, ih, decodeMember_savedError]
    simp only [List.mem_cons, forall_eq_or_imp]
    tauto

theorem decodeObject_savedError (ms : List (GoString × JSON)) :
    (decodeObject ms).savedError = none ↔ ∀ m ∈ ms, typeMismatch m = false := by
  unfold decodeObject
  rw [foldl_decodeMember_savedError]
  simp

theorem decodeMember_get (st : DecodeState) (m : GoString × JSON) (f : Field) :
    (decodeMember st m).j.get f = (stringFor f m).getD (st.j.get f) := by
  obtain ⟨k, v⟩ := m
  unfold decodeMember stringFor
  cases h : findField k with
  | none => cases v <;> simp
  | some g =>
    cases v with
    | string s =>
      by_cases hfg : g = f
      · subst hfg; simp [get_set]
      · have hfg' : ¬ f = g := fun e => hfg e.symm
        simp [get_set, hfg, hfg']
    | null => rfl
    | bool b => cases he : st.savedError <;> rfl
    | number t => cases he : st.savedError <;> rfl
    | array xs => cases he : st.savedError <;> rfl
    | object xs => cases he : st.savedError <;> rfl

theorem foldl_decodeMember_get (ms : List (GoString × JSON)) (f : Field) :
    ∀ st : DecodeState, (ms.foldl decodeMember st).j.get f =
      ((ms.filterMap (stringFor f)).getLast?).getD (st.j.get f) := by
  induction ms with
  | nil => intro st; simp
  | cons m ms ih =>
    intro st
    rw [List.foldl_cons, ih, decodeMember_get, List.filterMap_cons]
    cases hm : stringFor f m with
    | none => simp
    | some s =>
      simp only [Option.getD_some, List.getLast?_cons]

theorem decodeObject_get (ms : List (GoString × JSON)) (f : Field) :
    (decodeObject ms).j.get f = fieldValue ms f := by
  unfold decodeObject fieldValue
  rw [foldl_decodeMember_get]
  cases f <;> rfl

theorem notificationJSON_eta (j : notificationJSON) :
    j = { CheckID := j.get .CheckID, CheckName := j.get .CheckName, Level := j.get .Level,
          Message := j.get .Message, Time := j.get .Time, Type_ := j.get .Type_ } := rfl

theorem decodeNotificationJSON_ok (ms : List (GoString × JSON))
    (h : ∀ m ∈ ms, typeMismatch m = false) :
    decodeNotificationJSON ⟨some (.object ms)⟩ =
      .ok { CheckID := fieldValue ms .CheckID, CheckName := fieldValue ms .CheckName,
            Level := fieldValue ms .Level, Message := fieldValue ms .Message,
            Time := fieldValue ms .Time, Type_ := fieldValue ms .Type_ } := by
  have hs := (decodeObject_savedError ms).2 h
  unfold decodeNotificationJSON
  simp only [hs]
  rw [notificationJSON_eta (decodeObject ms).j]
  simp only [decodeObject_get]

theorem decodeNotificationJSON_error (ms : List (GoString × JSON))
    (h : ∃ m ∈ ms, typeMismatch m = true) :
    ∃ e, decodeNotificationJSON ⟨some (.object ms)⟩ = .error e := by
  have hs : (decodeObject ms).savedError ≠ none := by
    intro hn
    obtain ⟨m, hm, hmm⟩ := h
    have := (decodeObject_savedError ms).1 hn m hm
    rw [this] at hmm
    cases hmm
  cases he : (decodeObject ms).savedError with
  | none => exact absurd he hs
  | some e =>
    refine ⟨e, ?_⟩
    unfold decodeNotificationJSON
    simp only [he]

theorem parse_eq (j : notificationJSON) :
    j.parse = match timeParse j.Time with
      | none => .error (.wrapped "error parsing RFC3339 time" (.external "parsing time"))
      | some t =>
        .ok { CheckID := j.CheckID, CheckName := j.CheckName, Level := j.Level,
              Message := j.Message, Time := t, Type_ := j.Type_ } := rfl

theorem parse_error_iff (j : notificationJSON) :
    (∃ e, j.parse = .error e) ↔ timeParse j.Time = none := by
  rw [parse_eq]
  cases timeParse j.Time with
  | none => simp
  | some t => simp

theorem parseNotification_object_ok (ms : List (GoString × JSON))
    (h : ∀ m ∈ ms, typeMismatch m = false) :
    parseNotification ⟨some (.object ms)⟩ =
      (notificationJSON.parse
        { CheckID := fieldValue ms .CheckID, CheckName := fieldValue ms .CheckName,
          Level := fieldValue ms .Level, Message := fieldValue ms .Message,
          Time := fieldValue ms .Time, Type_ := fieldValue ms .Type_ }, []) := by
  unfold parseNotification
  rw [decodeNotificationJSON_ok ms h]

theorem parseNotification_object_error (ms : List (GoString × JSON))
    (h : ∃ m ∈ ms, typeMismatch m = true) :
    ∃ e, (parseNotification ⟨some (.object ms)⟩).1 = .error e := by
  obtain ⟨e, he⟩ := decodeNotificationJSON_error ms h
  unfold parseNotification
  rw [he]
  exact ⟨_, rfl⟩

theorem fieldValue_of_no_string (ms : List (GoString × JSON)) (f : Field)
    (h : ∀ m ∈ ms, stringFor f m = none) : fieldValue ms f = [] := by
  unfold fieldValue
  have : ms.filterMap (stringFor f) = [] := by
    rw [List.filterMap_eq_nil_iff]
    exact h
  rw [this]
  rfl

/-! ## Delivery and handler lemmas -/

theorem SendNotificationMessage_built (env : Env) (t : Telegram) (n : Notification)
    (bodyBytes : GoString) (resp : HTTPResponse)
    (hm : env.jsonMarshal (outboundBody env t n) = .ok bodyBytes)
    (hr : env.newRequestError (lit "POST") (t.baseURL ++ lit "/sendMessage") = none)
    (hd : env.clientDo (outboundRequest t bodyBytes) = .ok resp) :
    (SendNotificationMessage env t n).1 =
      if resp.StatusCode < 200 ∨ resp.StatusCode ≥ 400 then some .errTelegramBadStatus
      else none := by
  unfold outboundBody at hm
  unfold outboundRequest at hd
  unfold SendNotificationMessage
  simp only [hm, hr, hd]
  split <;> rfl

theorem SendNotificationMessage_events (env : Env) (t : Telegram) (n : Notification) :
    ∃ rest, (SendNotificationMessage env t n).2 = .sendNotificationMessage n :: rest
      ∧ rest.filter Event.isSend = [] ∧ rest.filter Event.isResponse = []
      ∧ (rest.filter Event.isHTTPDo).length ≤ 1 := by
  unfold SendNotificationMessage
  simp only
  split
  · exact ⟨[], rfl, rfl, rfl, by simp⟩
  · split
    · exact ⟨_, rfl, rfl, rfl, by simp [Event.isHTTPDo]⟩
    · split
      · exact ⟨_, rfl, rfl, rfl, by simp [Event.isHTTPDo]⟩
      · split
        · rename_i resp _ _
          cases resp.body <;> exact ⟨_, rfl, rfl, rfl, by simp [Event.isHTTPDo]⟩
        · exact ⟨_, rfl, rfl, rfl, by simp [Event.isHTTPDo]⟩

theorem parseNotification_events (r : Request) :
    (parseNotification r).2.filter Event.isSend = []
    ∧ (parseNotification r).2.filter Event.isHTTPDo = []
    ∧ (parseNotification r).2.filter Event.isResponse = [] := by
  unfold parseNotification
  cases decodeNotificationJSON r <;> exact ⟨rfl, rfl, rfl⟩

theorem responseCalls_writeError (env : Env) (status : Nat) (message : GoString) :
    responseCalls (writeError env status message) = response status (.errorResponseJSON message)
    ∧ (writeError env status message).filter Event.isSend = []
    ∧ (writeError env status message).filter Event.isHTTPDo = [] := by
  unfold writeError responseCalls response
  cases env.encodeError <;> exact ⟨rfl, rfl, rfl⟩

theorem responseCalls_writeSuccess (env : Env) (status : Nat) (message : GoString) :
    responseCalls (writeSuccess env status message)
      = response status (.successResponseJSON message)
    ∧ (writeSuccess env status message).filter Event.isSend = []
    ∧ (writeSuccess env status message).filter Event.isHTTPDo = [] := by
  unfold writeSuccess responseCalls response
  cases env.encodeError <;> exact ⟨rfl, rfl, rfl⟩

theorem handler_parse_error (env : Env) (a : Application) (r : Request) (e : GoError)
    (h : (parseNotification r).1 = .error e) :
    handler env a r = (parseNotification r).2
      ++ writeError env StatusBadRequest (lit "request parse error") := by
  unfold handler
  generalize parseNotification r = p at h
  obtain ⟨res, evs⟩ := p
  simp only at h
  subst h
  rfl

theorem handler_send_error (env : Env) (a : Application) (r : Request) (n : Notification)
    (e : GoError) (h : (parseNotification r).1 = .ok n)
    (hs : (SendNotificationMessage env a.telegram n).1 = some e) :
    handler env a r = (parseNotification r).2 ++ [.logInfo "received notification"]
      ++ (SendNotificationMessage env a.telegram n).2 ++ [.logInfo "telegram send error"]
      ++ writeError env StatusInternalServerError (lit "telegram send error") := by
  unfold handler
  generalize parseNotification r = p at h
  obtain ⟨res, evs⟩ := p
  simp only at h
  subst h
  dsimp only
  generalize SendNotificationMessage env a.telegram n = q at hs ⊢
  obtain ⟨err, sevs⟩ := q
  simp only at hs
  subst hs
  rfl

theorem handler_send_ok (env : Env) (a : Application) (r : Request) (n : Notification)
    (h : (parseNotification r).1 = .ok n)
    (hs : (SendNotificationMessage env a.telegram n).1 = none) :
    handler env a r = (parseNotification r).2 ++ [.logInfo "received notification"]
      ++ (SendNotificationMessage env a.telegram n).2
      ++ writeSuccess env StatusOK (lit "sent to telegram") := by
  unfold handler
  generalize parseNotification r = p at h
  obtain ⟨res, evs⟩ := p
  simp only at h
  subst h
  dsimp only
  generalize SendNotificationMessage env a.telegram n = q at hs ⊢
  obtain ⟨err, sevs⟩ := q
  simp only at hs
  subst hs
  rfl

/-! ## Date-time lemmas: `time.Parse` accepts exactly the accepted texts -/

theorem timeParse_eq (value : GoString) :
    timeParse value =
      (parseYear value).bind fun p0 =>
      (skipByte 0x2D p0.2).bind fun v1 =>
      (getnum v1 true).bind fun p1 =>
      if p1.1 = 0 ∨ 12 < p1.1 then none else
      (skipByte 0x2D p1.2).bind fun v2 =>
      (getnum v2 true).bind fun p2 =>
      (skipByte 0x54 p2.2).bind fun v3 =>
      (getnum v3 false).bind fun p3 =>
      if 24 ≤ p3.1 then none else
      (skipByte 0x3A p3.2).bind fun v4 =>
      (getnum v4 true).bind fun p4 =>
      if 60 ≤ p4.1 then none else
      (skipByte 0x3A p4.2).bind fun v5 =>
      (getnum v5 true).bind fun p5 =>
      if 60 ≤ p5.1 then none else
      (parseZone (parseFraction p5.2).2).bind fun p6 =>
      if p6.2 ≠ [] then none else
      if p2.1 < 1 ∨ p2.1 > daysIn p1.1 p0.1 then none else
      some { year := p0.1, month := p1.1, day := p2.1, hour := p3.1, min := p4.1, sec := p5.1,
             nsec := (parseFraction p5.2).1, offset := p6.1 } := by
  unfold timeParse
  simp only [Option.bind_eq_bind, Option.none_bind, Option.pure_def, Option.some_bind]

theorem digit_val (d : Nat) (h : d ≤ 9) : (digit d).val = 0x30 + d := by
  unfold digit
  rw [byte_val]
  omega

theorem isDigit_zero_cons (b : Byte) (rest : GoString) :
    isDigit (b :: rest) 0 = decide (0x30 ≤ b.val ∧ b.val ≤ 0x39) := rfl

theorem isDigit_succ_cons (b : Byte) (rest : GoString) (i : Nat) :
    isDigit (b :: rest) (i + 1) = isDigit rest i := rfl

theorem isDigit_nil (i : Nat) : isDigit [] i = false := rfl

theorem digitAt_zero_cons (b : Byte) (rest : GoString) :
    digitAt (b :: rest) 0 = b.val - 0x30 := rfl

theorem digitAt_succ_cons (b : Byte) (rest : GoString) (i : Nat) :
    digitAt (b :: rest) (i + 1) = digitAt rest i := rfl

theorem isDigit_digit (d : Nat) (h : d ≤ 9) (rest : GoString) :
    isDigit (digit d :: rest) 0 = true := by
  rw [isDigit_zero_cons, digit_val d h]
  simp
  omega

theorem digitAt_digit (d : Nat) (h : d ≤ 9) (rest : GoString) :
    digitAt (digit d :: rest) 0 = d := by
  rw [digitAt_zero_cons, digit_val d h]
  omega

theorem parseYear_fourDigits (y : Nat) (h : y ≤ 9999) (rest : GoString) :
    parseYear (fourDigits y ++ rest) = some ((y : Int), rest) := by
  have h0 : y / 1000 ≤ 9 := by omega
  have h1 : y / 100 % 10 ≤ 9 := by omega
  have h2 : y / 10 % 10 ≤ 9 := by omega
  have h3 : y % 10 ≤ 9 := by omega
  unfold parseYear fourDigits
  simp only [List.cons_append, List.nil_append, isDigit_succ_cons, digitAt_succ_cons,
    isDigit_digit _ h0, isDigit_digit _ h1, isDigit_digit _ h2, isDigit_digit _ h3,
    digitAt_digit _ h0, digitAt_digit _ h1, digitAt_digit _ h2, digitAt_digit _ h3,
    Bool.and_self, if_true, List.drop_succ_cons, List.drop_zero]
  congr 2
  congr 1
  omega

theorem getnum_twoDigits (n : Nat) (h : n ≤ 99) (fixed : Bool) (rest : GoString) :
    getnum (twoDigits n ++ rest) fixed = some (n, rest) := by
  have h0 : n / 10 ≤ 9 := by omega
  have h1 : n % 10 ≤ 9 := by omega
  unfold getnum twoDigits
  simp only [List.cons_append, List.nil_append, isDigit_succ_cons, digitAt_succ_cons,
    isDigit_digit _ h0, isDigit_digit _ h1, digitAt_digit _ h0, digitAt_digit _ h1,
    Bool.not_true, Bool.false_eq_true, if_false, List.drop_succ_cons, List.drop_zero]
  congr 2
  omega

theorem getnum_oneDigit (d : Nat) (h : d ≤ 9) (c : Byte) (hc : ¬ (0x30 ≤ c.val ∧ c.val ≤ 0x39))
    (rest : GoString) :
    getnum (digit d :: c :: rest) false = some (d, c :: rest) := by
  unfold getnum
  simp only [isDigit_succ_cons, isDigit_zero_cons, isDigit_digit _ h, digitAt_digit _ h, hc,
    decide_False, Bool.not_true, Bool.not_false, Bool.false_eq_true, if_false, if_true,
    List.drop_succ_cons, List.drop_zero]

theorem skipByte_cons (c : Byte) (rest : GoString) : skipByte c (c :: rest) = some rest := by
  simp [skipByte]

theorem parseFraction_other (b : Byte) (tl : GoString) (h : b ≠ 0x2E ∧ b ≠ 0x2C) :
    parseFraction (b :: tl) = (0, b :: tl) := by
  unfold parseFraction
  simp [h.1, h.2]

theorem parseFraction_nil : parseFraction [] = (0, []) := rfl

theorem takeWhile_digits (ds : List Nat) (hds : ∀ d ∈ ds, d ≤ 9) (tail : GoString)
    (ht : isDigit tail 0 = false) :
    (ds.map digit ++ tail).takeWhile (fun c => decide (0x30 ≤ c.val ∧ c.val ≤ 0x39))
      = ds.map digit := by
  induction ds with
  | nil =>
    cases tail with
    | nil => rfl
    | cons c tl =>
      rw [isDigit_zero_cons] at ht
      simp only [List.map_nil, List.nil_append, List.takeWhile_cons, ht]
      rfl
  | cons d ds ih =>
    have hd : d ≤ 9 := hds d (List.mem_cons_self _ _)
    have hv := digit_val d hd
    have hp : decide (0x30 ≤ (digit d).val ∧ (digit d).val ≤ 0x39) = true := by
      rw [hv]; simp; omega
    simp only [List.map_cons, List.cons_append, List.takeWhile_cons, hp, if_true]
    rw [ih (fun x hx => hds x (List.mem_cons_of_mem _ hx))]

theorem digitsValue_foldl (ds : List Nat) (hds : ∀ d ∈ ds, d ≤ 9) (acc : Nat) :
    (ds.map digit).foldl (fun acc c => acc * 10 + (c.val - 0x30)) acc
      = ds.foldl (fun acc d => acc * 10 + d) acc := by
  induction ds generalizing acc with
  | nil => rfl
  | cons d ds ih =>
    have hd : d ≤ 9 := hds d (List.mem_cons_self _ _)
    simp only [List.map_cons, List.foldl_cons, digit_val d hd]
    rw [ih (fun x hx => hds x (List.mem_cons_of_mem _ hx))]
    congr 1
    omega

theorem parseFraction_digits (sep : Byte) (hsep : sep = 0x2E ∨ sep = 0x2C) (ds : List Nat)
    (hne : ds ≠ []) (hds : ∀ d ∈ ds, d ≤ 9) (tail : GoString) (ht : isDigit tail 0 = false) :
    parseFraction (sep :: (ds.map digit ++ tail)) = (nanoseconds ds, tail) := by
  have hfirst : isDigit (ds.map digit ++ tail) 0 = true := by
    cases ds with
    | nil => exact absurd rfl hne
    | cons d ds' =>
      exact isDigit_digit d (hds d (List.mem_cons_self _ _)) _
  unfold parseFraction
  simp only [hsep, hfirst, and_self, if_true, takeWhile_digits ds hds tail ht]
  have hdrop : List.drop (ds.map digit).length (ds.map digit ++ tail) = tail := by
    simp
  rw [hdrop]
  unfold nanoseconds digitsValue
  rw [← List.map_take, digitsValue_foldl _ (fun d hd => hds d (List.mem_of_mem_take hd))]
  simp

theorem isDigit_zone (z : ZoneText) (hz : z.accepted) :
    isDigit z.render 0 = false ∧ ∃ b tl, z.render = b :: tl ∧ b ≠ 0x2E ∧ b ≠ 0x2C := by
  cases z with
  | utc letter =>
    simp only [ZoneText.accepted] at hz
    subst hz
    exact ⟨by decide, _, _, rfl, by decide, by decide⟩
  | offset neg hour minute =>
    cases neg
    · exact ⟨rfl, _, _, rfl, by decide, by decide⟩
    · exact ⟨rfl, _, _, rfl, by decide, by decide⟩

theorem parseZone_render (z : ZoneText) (hz : z.accepted) :
    parseZone z.render = some (z.seconds, []) := by
  cases z with
  | utc letter =>
    simp only [ZoneText.accepted] at hz
    subst hz
    rfl
  | offset neg hour minute =>
    simp only [ZoneText.accepted] at hz
    have hh : hour ≤ 99 := by omega
    have hm : minute ≤ 99 := by omega
    have g1 := getnum_twoDigits hour hh true []
    have g2 := getnum_twoDigits minute hm true []
    simp only [twoDigits, List.cons_append, List.nil_append] at g1 g2
    have hok : ¬ (hour > 24 ∨ minute > 60) := by omega
    cases neg
    · simp [ZoneText.render, parseZone, twoDigits, g1, g2, hok, ZoneText.seconds]
    · simp [ZoneText.render, parseZone, twoDigits, g1, g2, hok, ZoneText.seconds]

theorem parseFraction_render (fr : Option (Byte × List Nat)) (z : ZoneText)
    (hfr : fractionAccepted fr) (hz : z.accepted) :
    parseFraction (renderFraction fr ++ z.render) = (fractionNanoseconds fr, z.render) := by
  obtain ⟨hnd, b, tl, hbt, hb⟩ := isDigit_zone z hz
  cases fr with
  | none =>
    simp only [renderFraction, List.nil_append]
    rw [hbt]
    exact parseFraction_other b tl hb
  | some p =>
    obtain ⟨sep, ds⟩ := p
    simp only [fractionAccepted] at hfr
    simp only [renderFraction, List.cons_append]
    exact parseFraction_digits sep hfr.1 ds hfr.2.1 hfr.2.2 _ hnd

theorem timeParse_render (f : DateTimeText) (h : f.accepted) :
    timeParse f.render = some f.toTime := by
  obtain ⟨⟨hy, hm1, hm12, hd1, hdd, hh, hmin⟩, hsep, hshort, hsec, hfr, hz⟩ := h
  have hday : f.day ≤ 99 := by
    have : daysIn f.month f.year ≤ 31 := by
      unfold daysIn
      split
      · split <;> omega
      · split <;> omega
    omega
  have hhour : getnum ((if f.shortHour then [digit f.hour] else twoDigits f.hour)
      ++ 0x3A :: (twoDigits f.minute ++ 0x3A :: (twoDigits f.second
        ++ (renderFraction f.fraction ++ f.zone.render)))) false
      = some (f.hour, 0x3A :: (twoDigits f.minute ++ 0x3A :: (twoDigits f.second
        ++ (renderFraction f.fraction ++ f.zone.render)))) := by
    cases hs : f.shortHour with
    | true =>
      simp only [if_true, List.cons_append, List.nil_append]
      exact getnum_oneDigit f.hour (hshort hs) 0x3A (by decide) _
    | false =>
      simp only [Bool.false_eq_true, if_false]
      exact getnum_twoDigits f.hour (by omega) false _
  rw [timeParse_eq]
  unfold DateTimeText.render
  rw [parseYear_fourDigits f.year hy]
  simp only [Option.some_bind, skipByte_cons, getnum_twoDigits f.month (by omega),
    getnum_twoDigits f.day hday, hsep, hhour, getnum_twoDigits f.minute (by omega),
    getnum_twoDigits f.second (by omega), parseFraction_render f.fraction f.zone hfr hz,
    parseZone_render f.zone hz]
  have c1 : ¬ (f.month = 0 ∨ 12 < f.month) := by omega
  have c2 : ¬ (24 ≤ f.hour) := by omega
  have c3 : ¬ (60 ≤ f.minute) := by omega
  have c4 : ¬ (60 ≤ f.second) := by omega
  have c5 : ¬ (f.day < 1 ∨ f.day > daysIn f.month (f.year : Int)) := by omega
  simp only [c1, c2, c3, c4, c5, if_false, ne_eq, not_true_eq_false]
  rfl

theorem byte_eq_digit (b : Byte) (h : 0x30 ≤ b.val ∧ b.val ≤ 0x39) :
    b = digit (b.val - 0x30) := by
  apply Fin.ext
  rw [digit_val _ (by omega)]
  omega

theorem isDigit_zero_inv (v : GoString) (h : isDigit v 0 = true) :
    ∃ d rest, d ≤ 9 ∧ v = digit d :: rest ∧ digitAt v 0 = d := by
  cases v with
  | nil => cases h
  | cons b rest =>
    rw [isDigit_zero_cons] at h
    have hb : 0x30 ≤ b.val ∧ b.val ≤ 0x39 := by simpa using h
    refine ⟨b.val - 0x30, rest, by omega, ?_, rfl⟩
    rw [← byte_eq_digit b hb]

theorem skipByte_inv (c : Byte) (v v' : GoString) (h : skipByte c v = some v') :
    v = c :: v' := by
  cases v with
  | nil => cases h
  | cons b rest =>
    unfold skipByte at h
    by_cases hb : b = c
    · simp only [hb, if_true, Option.some.injEq] at h
      rw [hb, h]
    · simp [hb] at h

theorem getnum_fixed_inv (v : GoString) (n : Nat) (v' : GoString)
    (h : getnum v true = some (n, v')) : n ≤ 99 ∧ v = twoDigits n ++ v' := by
  unfold getnum at h
  cases h0 : isDigit v 0 with
  | false => simp [h0] at h
  | true =>
    obtain ⟨d0, rest, hd0, rfl, ha0⟩ := isDigit_zero_inv v h0
    rw [isDigit_succ_cons] at h
    cases h1 : isDigit rest 0 with
    | false => simp [h0, h1] at h
    | true =>
      obtain ⟨d1, rest', hd1, rfl, ha1⟩ := isDigit_zero_inv rest h1
      simp only [h0, h1, Bool.not_true, Bool.false_eq_true, if_false, Option.some.injEq,
        Prod.mk.injEq, digitAt_succ_cons, ha0, ha1, List.drop_succ_cons, List.drop_zero] at h
      obtain ⟨hn, hv⟩ := h
      subst hn hv
      refine ⟨by omega, ?_⟩
      unfold twoDigits
      have e0 : (d0 * 10 + d1) / 10 = d0 := by omega
      have e1 : (d0 * 10 + d1) % 10 = d1 := by omega
      rw [e0, e1]
      rfl

theorem getnum_free_inv (v : GoString) (n : Nat) (v' : GoString)
    (h : getnum v false = some (n, v')) :
    (n ≤ 99 ∧ v = twoDigits n ++ v') ∨ (n ≤ 9 ∧ v = digit n :: v' ∧ isDigit v' 0 = false) := by
  unfold getnum at h
  cases h0 : isDigit v 0 with
  | false => simp [h0] at h
  | true =>
    obtain ⟨d0, rest, hd0, rfl, ha0⟩ := isDigit_zero_inv v h0
    rw [isDigit_succ_cons] at h
    cases h1 : isDigit rest 0 with
    | false =>
      right
      simp only [h0, h1, Bool.not_true, Bool.not_false, Bool.false_eq_true, if_false, if_true,
        Option.some.injEq, Prod.mk.injEq, ha0, List.drop_succ_cons, List.drop_zero] at h
      obtain ⟨hn, hv⟩ := h
      subst hn hv
      exact ⟨hd0, rfl, h1⟩
    | true =>
      left
      obtain ⟨d1, rest', hd1, rfl, ha1⟩ := isDigit_zero_inv rest h1
      simp only [h0, h1, Bool.not_true, Bool.false_eq_true, if_false, Option.some.injEq,
        Prod.mk.injEq, digitAt_succ_cons, ha0, ha1, List.drop_succ_cons, List.drop_zero] at h
      obtain ⟨hn, hv⟩ := h
      subst hn hv
      refine ⟨by omega, ?_⟩
      unfold twoDigits
      have e0 : (d0 * 10 + d1) / 10 = d0 := by omega
      have e1 : (d0 * 10 + d1) % 10 = d1 := by omega
      rw [e0, e1]
      rfl

theorem parseYear_inv (v : GoString) (y : Int) (v' : GoString)
    (h : parseYear v = some (y, v')) :
    ∃ n : Nat, n ≤ 9999 ∧ y = (n : Int) ∧ v = fourDigits n ++ v' := by
  unfold parseYear at h
  cases h0 : isDigit v 0 with
  | false => simp [h0] at h
  | true =>
    obtain ⟨d0, r0, hd0, rfl, ha0⟩ := isDigit_zero_inv v h0
    simp only [isDigit_succ_cons, digitAt_succ_cons] at h
    cases h1 : isDigit r0 0 with
    | false => simp [h0, h1] at h
    | true =>
      obtain ⟨d1, r1, hd1, rfl, ha1⟩ := isDigit_zero_inv r0 h1
      simp only [isDigit_succ_cons, digitAt_succ_cons] at h
      cases h2 : isDigit r1 0 with
      | false => simp [h0, h1, h2] at h
      | true =>
        obtain ⟨d2, r2, hd2, rfl, ha2⟩ := isDigit_zero_inv r1 h2
        simp only [isDigit_succ_cons, digitAt_succ_cons] at h
        cases h3 : isDigit r2 0 with
        | false => simp [h0, h1, h2, h3] at h
        | true =>
          obtain ⟨d3, r3, hd3, rfl, ha3⟩ := isDigit_zero_inv r2 h3
          simp only [h0, h1, h2, h3, Bool.and_self, if_true, Option.some.injEq, Prod.mk.injEq,
            ha0, ha1, ha2, ha3, List.drop_succ_cons, List.drop_zero] at h
          obtain ⟨hn, hv⟩ := h
          subst hv
          refine ⟨d0 * 1000 + d1 * 100 + d2 * 10 + d3, by omega, hn.symm, ?_⟩
          unfold fourDigits
          have e0 : (d0 * 1000 + d1 * 100 + d2 * 10 + d3) / 1000 = d0 := by omega
          have e1 : (d0 * 1000 + d1 * 100 + d2 * 10 + d3) / 100 % 10 = d1 := by omega
          have e2 : (d0 * 1000 + d1 * 100 + d2 * 10 + d3) / 10 % 10 = d2 := by omega
          have e3 : (d0 * 1000 + d1 * 100 + d2 * 10 + d3) % 10 = d3 := by omega
          rw [e0, e1, e2, e3]
          rfl

theorem digits_prefix (rest : GoString) :
    ∃ (ds : List Nat) (tail : GoString),
      (∀ d ∈ ds, d ≤ 9) ∧ rest = ds.map digit ++ tail ∧ isDigit tail 0 = false := by
  induction rest with
  | nil => exact ⟨[], [], by simp, rfl, rfl⟩
  | cons b r ih =>
    by_cases hb : 0x30 ≤ b.val ∧ b.val ≤ 0x39
    · obtain ⟨ds, tail, hds, hr, ht⟩ := ih
      refine ⟨(b.val - 0x30) :: ds, tail, ?_, ?_, ht⟩
      · intro d hd
        rcases List.mem_cons.1 hd with h | h
        · omega
        · exact hds d h
      · rw [List.map_cons, List.cons_append, ← byte_eq_digit b hb, ← hr]
    · refine ⟨[], b :: r, by simp, rfl, ?_⟩
      rw [isDigit_zero_cons]
      simpa using hb

theorem parseFraction_inv (v : GoString) :
    ∃ fr, fractionAccepted fr ∧ v = renderFraction fr ++ (parseFraction v).2
      ∧ (parseFraction v).1 = fractionNanoseconds fr := by
  cases v with
  | nil => exact ⟨none, trivial, rfl, rfl⟩
  | cons sep rest =>
    by_cases hc : (sep = 0x2E ∨ sep = 0x2C) ∧ isDigit rest 0 = true
    · obtain ⟨ds, tail, hds, hr, ht⟩ := digits_prefix rest
      have hne : ds ≠ [] := by
        intro he
        rw [he] at hr
        simp only [List.map_nil, List.nil_append] at hr
        rw [hr, ht] at hc
        exact absurd hc.2 (by decide)
      have hp := parseFraction_digits sep hc.1 ds hne hds tail ht
      rw [← hr] at hp
      refine ⟨some (sep, ds), ⟨hc.1, hne, hds⟩, ?_, ?_⟩
      · rw [hp]
        simp only [renderFraction, List.cons_append, hr]
      · rw [hp]
        rfl
    · refine ⟨none, trivial, ?_, ?_⟩
      · unfold parseFraction
        simp only [hc, if_false]
        rfl
      · unfold parseFraction
        simp only [hc, if_false]
        rfl

theorem twoDigits_length (n : Nat) : (twoDigits n).length = 2 := rfl

theorem getnum_pair_inv (a b : Byte) (n : Nat) (x : GoString)
    (h : getnum [a, b] true = some (n, x)) : n ≤ 99 ∧ [a, b] = twoDigits n := by
  obtain ⟨hn, hv⟩ := getnum_fixed_inv _ _ _ h
  have hl := congrArg List.length hv
  simp only [List.length_cons, List.length_nil, List.length_append, twoDigits_length] at hl
  have hx : x = [] := List.length_eq_zero.1 (by omega)
  rw [hx, List.append_nil] at hv
  exact ⟨hn, hv⟩

theorem parseZone_inv (v : GoString) (off : Int) (v' : GoString)
    (h : parseZone v = some (off, v')) :
    ∃ z : ZoneText, z.accepted ∧ v = z.render ++ v' ∧ off = z.seconds := by
  cases v with
  | nil => cases h
  | cons v0 tl =>
    unfold parseZone at h
    by_cases hz : v0 = 0x5A
    · simp only [hz, if_true, List.drop_succ_cons, List.drop_zero, Option.some.injEq,
        Prod.mk.injEq] at h
      obtain ⟨ho, hv⟩ := h
      subst hz
      refine ⟨.utc 0x5A, rfl, ?_, ho.symm⟩
      rw [← hv]
      rfl
    · simp only [hz, if_false] at h
      match tl, h with
      | [], h => simp at h
      | [_], h => simp at h
      | [_, _], h => simp at h
      | [_, _, _], h => simp at h
      | [_, _, _, _], h => simp at h
      | a :: b :: c :: d :: e :: rest, h =>
        have hlen : ¬ ((v0 :: a :: b :: c :: d :: e :: rest).length < 6) := by
          simp only [List.length_cons]; omega
        simp only [hlen, if_false, List.get?_cons_succ, List.get?_cons_zero, ne_eq,
          Option.some.injEq, List.drop_succ_cons, List.drop_zero, List.take_succ_cons,
          List.take_zero] at h
        by_cases hc : c = 0x3A
        · simp only [hc, not_true_eq_false, if_false] at h
          cases g1 : getnum [a, b] true with
          | none => simp [g1] at h
          | some p1 =>
            cases g2 : getnum [d, e] true with
            | none => simp [g1, g2] at h
            | some p2 =>
              obtain ⟨hr, x1⟩ := p1
              obtain ⟨mm, x2⟩ := p2
              obtain ⟨hhr, hab⟩ := getnum_pair_inv a b hr x1 g1
              obtain ⟨hmm, hde⟩ := getnum_pair_inv d e mm x2 g2
              simp only [g1, g2] at h
              by_cases hrange : hr > 24 ∨ mm > 60
              · simp [hrange] at h
              · simp only [hrange, if_false] at h
                have hcons : v0 :: a :: b :: c :: d :: e :: rest
                    = v0 :: (twoDigits hr ++ 0x3A :: twoDigits mm) ++ rest := by
                  rw [← hab, ← hde, hc]
                  rfl
                by_cases hplus : v0 = 0x2B
                · simp only [hplus, if_true, Option.some.injEq, Prod.mk.injEq] at h
                  obtain ⟨ho, hv⟩ := h
                  refine ⟨.offset false hr mm, ⟨by omega, by omega⟩, ?_, ?_⟩
                  · rw [hcons, hplus, ← hv]
                    rfl
                  · rw [← ho]
                    rfl
                · by_cases hminus : v0 = 0x2D
                  · have hne : ¬ ((0x2D : Byte) = 0x2B) := by decide
                    simp only [hminus, hne, if_true, if_false, Option.some.injEq,
                      Prod.mk.injEq] at h
                    obtain ⟨ho, hv⟩ := h
                    refine ⟨.offset true hr mm, ⟨by omega, by omega⟩, ?_, ?_⟩
                    · rw [hcons, hminus, ← hv]
                      rfl
                    · rw [← ho]
                      rfl
                  · simp [hplus, hminus] at h
        · simp [hc] at h

theorem timeParse_inv (s : GoString) (t : Time) (h : timeParse s = some t) :
    ∃ f : DateTimeText, f.accepted ∧ f.render = s ∧ f.toTime = t := by
  rw [timeParse_eq] at h
  obtain ⟨⟨y, w0⟩, hp0, h⟩ := Option.bind_eq_some.1 h
  obtain ⟨w1, hs1, h⟩ := Option.bind_eq_some.1 h
  obtain ⟨⟨mo, w2⟩, hp1, h⟩ := Option.bind_eq_some.1 h
  dsimp only at hs1 h
  by_cases c1 : mo = 0 ∨ 12 < mo
  · rw [if_pos c1] at h; cases h
  rw [if_neg c1] at h
  obtain ⟨w3, hs2, h⟩ := Option.bind_eq_some.1 h
  obtain ⟨⟨dd, w4⟩, hp2, h⟩ := Option.bind_eq_some.1 h
  dsimp only at h
  obtain ⟨w5, hs3, h⟩ := Option.bind_eq_some.1 h
  obtain ⟨⟨hh, w6⟩, hp3, h⟩ := Option.bind_eq_some.1 h
  dsimp only at h
  by_cases c2 : 24 ≤ hh
  · rw [if_pos c2] at h; cases h
  rw [if_neg c2] at h
  obtain ⟨w7, hs4, h⟩ := Option.bind_eq_some.1 h
  obtain ⟨⟨mi, w8⟩, hp4, h⟩ := Option.bind_eq_some.1 h
  dsimp only at h
  by_cases c3 : 60 ≤ mi
  · rw [if_pos c3] at h; cases h
  rw [if_neg c3] at h
  obtain ⟨w9, hs5, h⟩ := Option.bind_eq_some.1 h
  obtain ⟨⟨ss, w10⟩, hp5, h⟩ := Option.bind_eq_some.1 h
  dsimp only at h
  by_cases c4 : 60 ≤ ss
  · rw [if_pos c4] at h; cases h
  rw [if_neg c4] at h
  obtain ⟨⟨off, w11⟩, hp6, h⟩ := Option.bind_eq_some.1 h
  dsimp only at h
  by_cases c5 : w11 ≠ []
  · rw [if_pos c5] at h; cases h
  rw [if_neg c5] at h
  by_cases c6 : dd < 1 ∨ dd > daysIn mo y
  · rw [if_pos c6] at h; cases h
  rw [if_neg c6] at h
  simp only [Option.some.injEq] at h
  have hw11 : w11 = [] := by simpa using c5
  subst hw11
  obtain ⟨n, hn, hy, hv0⟩ := parseYear_inv _ _ _ hp0
  have hv1 := skipByte_inv _ _ _ hs1
  obtain ⟨hmo, hv2⟩ := getnum_fixed_inv _ _ _ hp1
  have hv3 := skipByte_inv _ _ _ hs2
  obtain ⟨hdd, hv4⟩ := getnum_fixed_inv _ _ _ hp2
  have hv5 := skipByte_inv _ _ _ hs3
  have hv7 := skipByte_inv _ _ _ hs4
  obtain ⟨hmi, hv8⟩ := getnum_fixed_inv _ _ _ hp4
  have hv9 := skipByte_inv _ _ _ hs5
  obtain ⟨hss, hv10⟩ := getnum_fixed_inv _ _ _ hp5
  obtain ⟨fr, hfr, hv11, hns⟩ := parseFraction_inv w10
  obtain ⟨z, hz, hv12, hoff⟩ := parseZone_inv _ _ _ hp6
  rw [List.append_nil] at hv12
  subst hy
  have hrange : DateTimeText.inRange
      { year := n, month := mo, day := dd, separator := 0x54, hour := hh, shortHour := false,
        minute := mi, second := ss, fraction := fr, zone := z } := by
    refine ⟨hn, ?_, ?_, ?_, ?_, ?_, ?_⟩ <;> simp only <;> omega
  rcases getnum_free_inv _ _ _ hp3 with ⟨hh99, hv6⟩ | ⟨hh9, hv6, _⟩
  · refine ⟨{ year := n, month := mo, day := dd, separator := 0x54, hour := hh,
              shortHour := false, minute := mi, second := ss, fraction := fr, zone := z },
      ⟨hrange, rfl, by simp, by simp only; omega, hfr, hz⟩, ?_, ?_⟩
    · unfold DateTimeText.render
      simp only [Bool.false_eq_true, if_false]
      rw [hv0, hv1, hv2, hv3, hv4, hv5, hv6, hv7, hv8, hv9, hv10, hv11, hv12]
    · rw [← h]
      unfold DateTimeText.toTime
      simp only [hns, hoff]
  · refine ⟨{ year := n, month := mo, day := dd, separator := 0x54, hour := hh,
              shortHour := true, minute := mi, second := ss, fraction := fr, zone := z },
      ⟨hrange, rfl, fun _ => hh9, by simp only; omega, hfr, hz⟩, ?_, ?_⟩
    · unfold DateTimeText.render
      simp only [if_true, List.cons_append, List.nil_append]
      rw [hv0, hv1, hv2, hv3, hv4, hv5, hv6, hv7, hv8, hv9, hv10, hv11, hv12]
    · rw [← h]
      unfold DateTimeText.toTime
      simp only [hns, hoff]

theorem timeParse_eq_some_iff (s : GoString) (t : Time) :
    timeParse s = some t ↔ ∃ f : DateTimeText, f.accepted ∧ f.render = s ∧ f.toTime = t := by
  constructor
  · exact timeParse_inv s t
  · rintro ⟨f, hf, hs, ht⟩
    rw [← hs, ← ht]
    exact timeParse_render f hf

theorem timeParse_eq_none_iff (s : GoString) :
    timeParse s = none ↔ ¬ ∃ f : DateTimeText, f.accepted ∧ f.render = s := by
  constructor
  · rintro h ⟨f, hf, hs⟩
    rw [← hs, timeParse_render f hf] at h
    cases h
  · intro h
    cases ht : timeParse s with
    | none => rfl
    | some t =>
      obtain ⟨f, hf, hs, _⟩ := timeParse_inv s t ht
      exact absurd ⟨f, hf, hs⟩ h

theorem accepted_of_isRFC3339 (f : DateTimeText) (h : f.isRFC3339) (hu : f.upperCase)
    (hs : f.second ≤ 59) : f.accepted := by
  obtain ⟨hr, _, hshort, _, hfr, hz⟩ := h
  refine ⟨hr, hu.1, ?_, hs, ?_, ?_⟩
  · intro hc
    rw [hshort] at hc
    cases hc
  · cases hq : f.fraction with
    | none => trivial
    | some p =>
      obtain ⟨sep, ds⟩ := p
      rw [hq] at hfr
      exact ⟨Or.inl hfr.1, hfr.2.1, hfr.2.2⟩
  · have hne := hu.2
    cases hq : f.zone with
    | utc letter =>
      rw [hq] at hz hne
      simp only [ZoneText.isRFC3339] at hz
      rcases hz with h1 | h1
      · exact h1
      · rw [h1] at hne
        exact absurd rfl hne
    | offset neg hour minute =>
      rw [hq] at hz
      simp only [ZoneText.isRFC3339] at hz
      exact ⟨by omega, by omega⟩

theorem render_colon_of_isRFC3339 (f : DateTimeText) (h : f.isRFC3339) :
    f.render.get? 13 = some 0x3A := by
  obtain ⟨_, _, hshort, _⟩ := h
  unfold DateTimeText.render fourDigits twoDigits
  rw [hshort]
  rfl

/-! ## Claims: the escaping rule -/

/-- C1 (escaping range property): for every string `s`, `markdownSafe s` is the
UTF-8 encoding of the concatenation, in order over the code points `c` that
`range` reads from `s`, of `[backslash, c]` when `1 ≤ c ≤ 126` and `[c]`
otherwise; the code points of the output are exactly that concatenation; and
the code point at index `i` of `s` appears, escaped or unchanged by this rule,
at the corresponding position of the output (after the `i` code points before
it and their backslashes). -/
theorem markdownSafe_escaping_range (s : GoString) :
    markdownSafe s = stringOfRunes ((rangeRunes s).flatMap
        (fun c => if 1 ≤ c ∧ c ≤ 126 then [0x5C, c] else [c]))
    ∧ rangeRunes (markdownSafe s) = (rangeRunes s).flatMap
        (fun c => if 1 ≤ c ∧ c ≤ 126 then [0x5C, c] else [c])
    ∧ ∀ (i c : Nat), (rangeRunes s).get? i = some c →
        (if 1 ≤ c ∧ c ≤ 126 then [0x5C, c] else [c]) <+:
          (rangeRunes (markdownSafe s)).drop (i + escapedCount ((rangeRunes s).take i)) := by
  refine ⟨?_, ?_, ?_⟩
  · unfold markdownSafe
    rw [markdownSafeRunes_eq]
    rfl
  · exact rangeRunes_markdownSafe s
  · intro i c hi
    rw [rangeRunes_markdownSafe]
    exact escapeRune_prefix_at (rangeRunes s) i c hi

/-- C2 (escaping round trip), counterexample: the one-byte string `"\xff"` is
not valid UTF-8; `range` reads it as U+FFFD, so the escaped output is
`"\xef\xbf\xbd"` and reversing the rule does not give `"\xff"` back. -/
theorem unescape_markdownSafe_invalid :
    markdownSafe [0xFF] = [0xEF, 0xBF, 0xBD] ∧ unescape (markdownSafe [0xFF]) ≠ [0xFF] := by
  decide

/-- C2 (escaping round trip), amended: reversing the escaping rule on
`markdownSafe s` gives the UTF-8 encoding of the code points `range` reads
from `s` (each invalid byte of `s` read as U+FFFD); it reconstructs `s` exactly
whenever `s` is valid UTF-8, and only then. -/
theorem unescape_markdownSafe (s : GoString) :
    unescape (markdownSafe s) = stringOfRunes (rangeRunes s)
    ∧ (ValidUTF8 s → unescape (markdownSafe s) = s)
    ∧ (unescape (markdownSafe s) = s → ValidUTF8 s) := by
  have h : unescape (markdownSafe s) = stringOfRunes (rangeRunes s) := by
    unfold unescape
    rw [rangeRunes_markdownSafe, unescapeRunes_escape]
  exact ⟨h, fun hv => h.trans (rangeRunes_of_valid s hv),
    fun he => (validUTF8_iff s).2 (h.symm.trans he)⟩

/-- C2, witness: the valid string `a\b` (with a backslash) is reconstructed. -/
theorem unescape_markdownSafe_witness :
    ValidUTF8 (lit "a\\b") ∧ unescape (markdownSafe (lit "a\\b")) = lit "a\\b" :=
  have hv : ValidUTF8 (lit "a\\b") := ⟨[0x61, 0x5C, 0x62], by decide, by decide⟩
  ⟨hv, (unescape_markdownSafe (lit "a\\b")).2.1 hv⟩

/-- C10 (length of escaped output), counterexample: the only code point read
from `"\xff"` is U+FFFD, outside `1 ..= 126`, and the output has one code
point, but the output is `"\xef\xbf\xbd"`, not the input. -/
theorem markdownSafe_length_invalid :
    (∀ c ∈ rangeRunes [0xFF], ¬ (1 ≤ c ∧ c ≤ 126))
    ∧ (rangeRunes (markdownSafe [0xFF])).length = (rangeRunes [0xFF]).length
    ∧ markdownSafe [0xFF] ≠ [0xFF] := by
  decide

/-- C10 (length of escaped output), amended: for a string `s` with `n` code
points of which `k` lie in `1 ..= 126`, `markdownSafe s` has exactly `n + k`
code points, between `n` and `2n`; exactly `2n` when every code point is in
the range; exactly `n` when none is, and then the output is the UTF-8 encoding
of the code points of `s`, equal to `s` when `s` is valid UTF-8; and the rune
slice never exceeds the capacity `len(s)+len(s)` it was made with. -/
theorem markdownSafe_length (s : GoString) :
    (rangeRunes (markdownSafe s)).length
        = (rangeRunes s).length + escapedCount (rangeRunes s)
    ∧ (markdownSafeRunes s).length = (rangeRunes s).length + escapedCount (rangeRunes s)
    ∧ (rangeRunes s).length ≤ (rangeRunes (markdownSafe s)).length
    ∧ (rangeRunes (markdownSafe s)).length ≤ 2 * (rangeRunes s).length
    ∧ ((∀ c ∈ rangeRunes s, 1 ≤ c ∧ c ≤ 126) →
        (rangeRunes (markdownSafe s)).length = 2 * (rangeRunes s).length)
    ∧ ((∀ c ∈ rangeRunes s, ¬ (1 ≤ c ∧ c ≤ 126)) →
        (rangeRunes (markdownSafe s)).length = (rangeRunes s).length
        ∧ markdownSafe s = stringOfRunes (rangeRunes s)
        ∧ (ValidUTF8 s → markdownSafe s = s))
    ∧ (markdownSafeRunes s).length ≤ markdownSafeCap s := by
  have hlen := length_flatMap_escapeRune (rangeRunes s)
  have hk := escapedCount_le (rangeRunes s)
  have hn := rangeRunes_length_le s
  rw [rangeRunes_markdownSafe, markdownSafeRunes_eq, hlen]
  refine ⟨rfl, rfl, by omega, by omega, ?_, ?_, ?_⟩
  · intro hall
    have : escapedCount (rangeRunes s) = (rangeRunes s).length := by
      unfold escapedCount
      rw [List.countP_eq_length]
      intro c hc
      simpa using hall c hc
    omega
  · intro hnone
    have hid := flatMap_escapeRune_none (rangeRunes s) hnone
    have hzero : escapedCount (rangeRunes s) = 0 := by
      have := hlen
      rw [hid] at this
      omega
    have hout : markdownSafe s = stringOfRunes (rangeRunes s) := by
      unfold markdownSafe
      rw [markdownSafeRunes_eq, hid]
    exact ⟨by omega, hout, fun hv => hout.trans (rangeRunes_of_valid s hv)⟩
  · unfold markdownSafeCap
    omega

/-- C10, witness: in the valid string `é€` no code point is in `1 ..= 126` and
the output is the input; in `ab` both are and the output has four. -/
theorem markdownSafe_length_witness :
    markdownSafe (lit "é€") = lit "é€"
    ∧ (rangeRunes (markdownSafe (lit "ab"))).length = 2 * (rangeRunes (lit "ab")).length :=
  ⟨((markdownSafe_length (lit "é€")).2.2.2.2.2.1 (by decide)).2.2
      ⟨[0xE9, 0x20AC], by decide, by decide⟩,
    (markdownSafe_length (lit "ab")).2.2.2.2.1 (by decide)⟩

/-! ## Claims: the formatted message -/

/-- C3 (scenario 1), counterexample: the text the claim gives, with backslashes
only before the two hyphens of the date, is not what
`formatTelegramMessageText` returns for the scenario's notification. -/
theorem formatTelegramMessageText_scenario_claimed :
    formatTelegramMessageText (fun r => r) scenarioTelegram scenarioNotification
      ≠ lit "*CRITICAL* on disk at 2024\\-01\\-02T03:04:05Z\n\ndisk full" := by
  decide

/-- C3 (scenario 1), amended: for the notification with level `critical`, check
name `disk`, message `disk full` and time 2024-01-02T03:04:05Z the text is
`*`, the upper-cased level, `*`, ` on `, the check name, ` at `, the time, two
newlines and the message, with a backslash before every character of the four
fields (every one of them has a code in `1 ..= 126`), not only before the
hyphens of the date. -/
theorem formatTelegramMessageText_scenario (unicodeToUpper : Nat → Nat) (t : Telegram) :
    formatTelegramMessageText unicodeToUpper t scenarioNotification
      = lit "*\\C\\R\\I\\T\\I\\C\\A\\L* on \\d\\i\\s\\k at "
          ++ lit "\\2\\0\\2\\4\\-\\0\\1\\-\\0\\2\\T\\0\\3\\:\\0\\4\\:\\0\\5\\Z"
          ++ lit "\n\n\\d\\i\\s\\k\\ \\f\\u\\l\\l" := by
  have hup : ToUpper unicodeToUpper scenarioNotification.Level = lit "CRITICAL" := by
    unfold ToUpper
    rw [if_pos (by decide), if_pos (by decide)]
    decide
  unfold formatTelegramMessageText
  rw [hup]
  decide

/-- C4 (composition): for every notification the text is `*`, the escaped
upper-cased level, `*`, ` on `, the escaped check name, ` at `, the escaped
RFC 3339 rendering of the time, two newlines and the escaped message; the level
is upper-cased before it is escaped, the `*` delimiters are not escaped, and
`CheckID` and `Type` do not affect the result. -/
theorem formatTelegramMessageText_composition (unicodeToUpper : Nat → Nat) (t : Telegram)
    (n : Notification) :
    formatTelegramMessageText unicodeToUpper t n
      = lit "*" ++ markdownSafe (ToUpper unicodeToUpper n.Level) ++ lit "*" ++ lit " on "
          ++ markdownSafe n.CheckName ++ lit " at " ++ markdownSafe (formatRFC3339 n.Time)
          ++ lit "\n\n" ++ markdownSafe n.Message
    ∧ ∀ (checkID type_ : GoString) (t' : Telegram),
        formatTelegramMessageText unicodeToUpper t'
            { n with CheckID := checkID, Type_ := type_ }
          = formatTelegramMessageText unicodeToUpper t n := by
  refine ⟨?_, fun _ _ _ => rfl⟩
  unfold formatTelegramMessageText markdownBold
  rw [sprintf_four]
  simp only [List.append_assoc]

/-! ## Claims: the parser -/

/-- C7 (parser rejection), counterexample: an object with the single member
`_time` lacks five of the six keys, and an object whose `_check_id` is `null`
has a non-string value for a key; both parse, the absent or `null` fields left
as the empty string.  And the `_time` value `2024-01-02T3:04:05Z`, with a
one-digit hour, is no RFC 3339 date-time, yet the scenario payload with it
parses. -/
theorem parseNotification_missing_keys :
    (parseNotification ⟨some (.object [(lit "_time", .string (lit "2024-01-02T03:04:05Z"))])⟩).1
      = .ok { CheckID := [], CheckName := [], Level := [], Message := [],
              Time := scenarioTime, Type_ := [] }
    ∧ (parseNotification ⟨some (.object
          [(lit "_check_id", .null), (lit "_time", .string (lit "2024-01-02T03:04:05Z"))])⟩).1
      = .ok { CheckID := [], CheckName := [], Level := [], Message := [],
              Time := scenarioTime, Type_ := [] }
    ∧ (¬ ∃ f : DateTimeText, f.isRFC3339 ∧ f.render = lit "2024-01-02T3:04:05Z")
    ∧ (parseNotification (scenarioRequest (lit "2024-01-02T3:04:05Z"))).1
      = .ok scenarioNotification := by
  refine ⟨rfl, rfl, ?_, rfl⟩
  rintro ⟨f, hf, hr⟩
  have h13 := render_colon_of_isRFC3339 f hf
  rw [hr] at h13
  revert h13
  decide

/-- C7 (parser rejection), amended: for every JSON object payload,
`parseNotification` fails if no member whose key names `_time` (exactly or
under case folding) has a string value, if some member whose key names one of
the six fields has a value that is neither a string nor `null`, or if the
`_time` string the decoder keeps (the last one) is not a date-time text that
`time.Parse` accepts: `YYYY-MM-DD`, `T`, `HH:MM:SS` with a second up to 59, an
optional fraction, then `Z` or an offset `+HH:MM` or `-HH:MM`, where besides
RFC 3339 a one-digit hour, a comma before the fraction, an offset hour of 24
and an offset minute of 60 are accepted.  It fails only then: a missing key
other than `_time`, or a `null` value, leaves the field as the empty string and
is no failure. -/
theorem parseNotification_rejection (ms : List (GoString × JSON)) :
    ((∀ m ∈ ms, stringFor .Time m = none) →
        ∃ e, (parseNotification ⟨some (.object ms)⟩).1 = .error e)
    ∧ ((∃ m ∈ ms, typeMismatch m = true) →
        ∃ e, (parseNotification ⟨some (.object ms)⟩).1 = .error e)
    ∧ ((¬ ∃ f : DateTimeText, f.accepted ∧ f.render = fieldValue ms .Time) →
        ∃ e, (parseNotification ⟨some (.object ms)⟩).1 = .error e)
    ∧ ((∃ e, (parseNotification ⟨some (.object ms)⟩).1 = .error e) ↔
        (∃ m ∈ ms, typeMismatch m = true)
          ∨ ¬ ∃ f : DateTimeText, f.accepted ∧ f.render = fieldValue ms .Time) := by
  have hiff : (∃ e, (parseNotification ⟨some (.object ms)⟩).1 = .error e) ↔
      (∃ m ∈ ms, typeMismatch m = true)
        ∨ ¬ ∃ f : DateTimeText, f.accepted ∧ f.render = fieldValue ms .Time := by
    rw [← timeParse_eq_none_iff]
    by_cases h : ∀ m ∈ ms, typeMismatch m = false
    · rw [parseNotification_object_ok ms h]
      have hno : ¬ ∃ m ∈ ms, typeMismatch m = true := by
        rintro ⟨m, hm, hmm⟩
        rw [h m hm] at hmm
        cases hmm
      simp only [hno, false_or]
      exact parse_error_iff _
    · have hex : ∃ m ∈ ms, typeMismatch m = true := by
        by_contra hcon
        apply h
        intro m hm
        cases hmm : typeMismatch m with
        | false => rfl
        | true => exact absurd ⟨m, hm, hmm⟩ hcon
      exact ⟨fun _ => Or.inl hex, fun _ => parseNotification_object_error ms hex⟩
  refine ⟨fun h => ?_, fun h => hiff.2 (Or.inl h), fun h => hiff.2 (Or.inr h), hiff⟩
  apply hiff.2
  right
  rw [fieldValue_of_no_string ms .Time h, ← timeParse_eq_none_iff]
  decide

/-- C7, witness: the scenario payload with `_time` set to `not-a-time`, with
`_time` removed, and with a number for `_level`, is rejected each time. -/
theorem parseNotification_rejection_witness :
    (∃ e, (parseNotification ⟨some (.object (scenarioMembers (lit "not-a-time")))⟩).1
        = .error e)
    ∧ (∃ e, (parseNotification ⟨some (.object
        [(lit "_check_id", .string (lit "1")), (lit "_type", .string (lit "alert"))])⟩).1
        = .error e)
    ∧ (∃ e, (parseNotification ⟨some (.object
        [(lit "_level", .number (lit "3")),
          (lit "_time", .string (lit "2024-01-02T03:04:05Z"))])⟩).1 = .error e) :=
  ⟨(parseNotification_rejection _).2.2.1
      ((timeParse_eq_none_iff (fieldValue (scenarioMembers (lit "not-a-time")) .Time)).1
        (by decide)),
    (parseNotification_rejection _).1 (by decide),
    (parseNotification_rejection _).2.1 (by decide)⟩

/-- C8 (parser totality on valid input), counterexample: the scenario payload,
with all six keys string-valued and a valid `_time`, and one more member
`_TYPE` holding a number, is rejected: the key `_TYPE` names the field `Type`
under case folding.  And the scenario payload whose `_time` is the RFC 3339
leap second `1990-12-31T23:59:60Z`, or the RFC 3339 text
`2024-01-02t03:04:05z` in lower case, is rejected as well. -/
theorem parseNotification_extra_member :
    ((scenarioMembers (lit "2024-01-02T03:04:05Z")).all (fun m => m.2.isString) = true
      ∧ scenarioTimeText.isRFC3339
      ∧ scenarioTimeText.render = lit "2024-01-02T03:04:05Z"
      ∧ (parseNotification ⟨some (.object
            (scenarioMembers (lit "2024-01-02T03:04:05Z")
              ++ [(lit "_TYPE", .number (lit "5"))]))⟩).1
          = .error (.wrapped "error unmarshaling request json"
              (.external "json: cannot unmarshal value into Go struct field of type string")))
    ∧ (leapSecondText.isRFC3339
      ∧ leapSecondText.render = lit "1990-12-31T23:59:60Z"
      ∧ (parseNotification (scenarioRequest (lit "1990-12-31T23:59:60Z"))).1
          = .error (.wrapped "error parsing RFC3339 time" (.external "parsing time")))
    ∧ (lowerCaseText.isRFC3339
      ∧ lowerCaseText.render = lit "2024-01-02t03:04:05z"
      ∧ (parseNotification (scenarioRequest (lit "2024-01-02t03:04:05z"))).1
          = .error (.wrapped "error parsing RFC3339 time" (.external "parsing time"))) :=
  ⟨⟨by decide, by decide, by decide, rfl⟩, ⟨by decide, by decide, rfl⟩,
    ⟨by decide, by decide, rfl⟩⟩

/-- C8 (parser totality on valid input), amended: for every JSON object in
which every member whose key names one of the six fields (exactly or under
case folding) is string-valued, and whose `_time` string (the last one) is an
RFC 3339 date-time written with upper-case `T` and `Z` and a second of at most
59, parsing succeeds and `CheckID`, `CheckName`, `Level`, `Message` and `Type`
are verbatim the string of the last member naming the field, `Time` the time
the text denotes to the nanosecond.  `notificationJSON.parse` fails exactly
when the `_time` string is not a text `time.Parse` accepts, and copies the
other fields verbatim when it is. -/
theorem parseNotification_valid (ms : List (GoString × JSON)) (f : DateTimeText)
    (hs : ∀ m ∈ ms, (findField m.1).isSome = true → m.2.isString = true)
    (hf : f.isRFC3339) (hu : f.upperCase) (hsec : f.second ≤ 59)
    (ht : fieldValue ms .Time = f.render) :
    parseNotification ⟨some (.object ms)⟩ =
      (.ok { CheckID := fieldValue ms .CheckID, CheckName := fieldValue ms .CheckName,
             Level := fieldValue ms .Level, Message := fieldValue ms .Message,
             Time := f.toTime, Type_ := fieldValue ms .Type_ }, [])
    ∧ ∀ j : notificationJSON,
        ((∃ e, j.parse = .error e) ↔ ¬ ∃ g : DateTimeText, g.accepted ∧ g.render = j.Time)
        ∧ ∀ g : DateTimeText, g.accepted → g.render = j.Time →
            j.parse = .ok { CheckID := j.CheckID, CheckName := j.CheckName, Level := j.Level,
                            Message := j.Message, Time := g.toTime, Type_ := j.Type_ } := by
  constructor
  · have h : ∀ m ∈ ms, typeMismatch m = false := by
      intro m hm
      have := hs m hm
      obtain ⟨k, v⟩ := m
      unfold typeMismatch
      cases hfd : findField k with
      | none => rfl
      | some fd =>
        rw [hfd] at this
        cases v <;> simp [JSON.isString] at this ⊢
    have hp : timeParse (fieldValue ms .Time) = some f.toTime := by
      rw [ht]
      exact timeParse_render f (accepted_of_isRFC3339 f hf hu hsec)
    rw [parseNotification_object_ok ms h, parse_eq]
    simp only [hp]
  · intro j
    refine ⟨?_, fun g hg hr => ?_⟩
    · rw [← timeParse_eq_none_iff]
      exact parse_error_iff j
    · have hp : timeParse j.Time = some g.toTime := by
        rw [← hr]
        exact timeParse_render g hg
      rw [parse_eq]
      simp only [hp]

/-- C8, witness: the scenario payload parses into the scenario notification. -/
theorem parseNotification_valid_witness :
    (parseNotification ⟨some (.object (scenarioMembers (lit "2024-01-02T03:04:05Z")))⟩).1
      = .ok scenarioNotification :=
  congrArg Prod.fst
    (parseNotification_valid (scenarioMembers (lit "2024-01-02T03:04:05Z")) scenarioTimeText
      (by decide) (by decide) (by decide) (by decide) (by decide)).1

/-! ## Claims: delivery and the handler -/

/-- C5 (delivery classification by status): when the request body is
marshalled, the outbound request is built and the HTTP call returns a response
with status code `st`, `SendNotificationMessage` returns `nil` if and only if
`200 ≤ st < 400`, and `ErrTelegramBadStatus` for every other `st`; the result is
a function of the status code alone, so in any two runs whose responses have the
same status code, whatever their bodies and whether or not they decode, it
returns the same value. -/
theorem SendNotificationMessage_classification (env : Env) (t : Telegram) (n : Notification)
    (bodyBytes : GoString) (resp : HTTPResponse)
    (hm : env.jsonMarshal (outboundBody env t n) = .ok bodyBytes)
    (hr : env.newRequestError (lit "POST") (t.baseURL ++ lit "/sendMessage") = none)
    (hd : env.clientDo (outboundRequest t bodyBytes) = .ok resp) :
    ((SendNotificationMessage env t n).1 = none ↔ 200 ≤ resp.StatusCode ∧ resp.StatusCode < 400)
    ∧ (¬ (200 ≤ resp.StatusCode ∧ resp.StatusCode < 400) →
        (SendNotificationMessage env t n).1 = some .errTelegramBadStatus)
    ∧ ∀ (env' : Env) (bodyBytes' : GoString) (resp' : HTTPResponse),
        env'.jsonMarshal (outboundBody env' t n) = .ok bodyBytes' →
        env'.newRequestError (lit "POST") (t.baseURL ++ lit "/sendMessage") = none →
        env'.clientDo (outboundRequest t bodyBytes') = .ok resp' →
        resp'.StatusCode = resp.StatusCode →
        (SendNotificationMessage env' t n).1 = (SendNotificationMessage env t n).1 := by
  have h := SendNotificationMessage_built env t n bodyBytes resp hm hr hd
  refine ⟨?_, ?_, ?_⟩
  · rw [h]
    by_cases hc : resp.StatusCode < 200 ∨ resp.StatusCode ≥ 400
    · simp only [hc, if_true]
      constructor
      · intro h'; cases h'
      · intro h'; omega
    · simp only [hc, if_false, true_iff]
      omega
  · intro hc
    rw [h, if_pos (by omega)]
  · intro env' bodyBytes' resp' hm' hr' hd' hst
    rw [h, SendNotificationMessage_built env' t n bodyBytes' resp' hm' hr' hd', hst]

/-- C5, witness: with the scenario's delivery client and notification, a
response with status 503 and an undecodable body gives `ErrTelegramBadStatus`. -/
theorem SendNotificationMessage_classification_witness :
    (SendNotificationMessage (scenarioEnv (.ok { StatusCode := 503, body := none }))
        scenarioTelegram scenarioNotification).1 = some .errTelegramBadStatus :=
  (SendNotificationMessage_classification
      (scenarioEnv (.ok { StatusCode := 503, body := none }))
      scenarioTelegram scenarioNotification _ { StatusCode := 503, body := none }
      rfl rfl rfl).2.1 (by decide)

/-- C6 (handler outcome mapping): the calls the handler makes on the response
writer are those of exactly one response, fixed by the pipeline outcome alone:
a parser failure gives status 400 and the body `{"error": "request parse
error"}`; a parsed notification whose delivery fails, for whatever reason, gives
status 500 and `{"error": "telegram send error"}`; a parsed notification that is
delivered gives status 200 and `{"message": "sent to telegram"}`; each response
sets `Content-Type: application/json` before the status line. -/
theorem handler_outcome (env : Env) (a : Application) (r : Request) :
    (∀ e, (parseNotification r).1 = .error e →
        responseCalls (handler env a r)
          = response 400 (.errorResponseJSON (lit "request parse error")))
    ∧ (∀ n e, (parseNotification r).1 = .ok n →
        (SendNotificationMessage env a.telegram n).1 = some e →
        responseCalls (handler env a r)
          = response 500 (.errorResponseJSON (lit "telegram send error")))
    ∧ (∀ n, (parseNotification r).1 = .ok n →
        (SendNotificationMessage env a.telegram n).1 = none →
        responseCalls (handler env a r)
          = response 200 (.successResponseJSON (lit "sent to telegram")))
    ∧ (responseCalls (handler env a r)
          = response 400 (.errorResponseJSON (lit "request parse error"))
        ∨ responseCalls (handler env a r)
          = response 500 (.errorResponseJSON (lit "telegram send error"))
        ∨ responseCalls (handler env a r)
          = response 200 (.successResponseJSON (lit "sent to telegram")))
    ∧ (∀ status body, response status body
          = [.setHeader (lit "Content-Type") (lit "application/json"), .writeHeader status,
              .encode body])
    ∧ (ResponseJSON.errorResponseJSON (lit "request parse error")).toJSON
          = .object [(lit "error", .string (lit "request parse error"))]
    ∧ (ResponseJSON.errorResponseJSON (lit "telegram send error")).toJSON
          = .object [(lit "error", .string (lit "telegram send error"))]
    ∧ (ResponseJSON.successResponseJSON (lit "sent to telegram")).toJSON
          = .object [(lit "message", .string (lit "sent to telegram"))] := by
  have hp := parseNotification_events r
  have h400 : ∀ e, (parseNotification r).1 = .error e →
      responseCalls (handler env a r)
        = response 400 (.errorResponseJSON (lit "request parse error")) := by
    intro e he
    rw [handler_parse_error env a r e he]
    unfold responseCalls
    rw [List.filter_append, hp.2.2, List.nil_append]
    exact (responseCalls_writeError env _ _).1
  have h500 : ∀ n e, (parseNotification r).1 = .ok n →
      (SendNotificationMessage env a.telegram n).1 = some e →
      responseCalls (handler env a r)
        = response 500 (.errorResponseJSON (lit "telegram send error")) := by
    intro n e hn hs
    obtain ⟨rest, hrest, _, hresp, _⟩ := SendNotificationMessage_events env a.telegram n
    rw [handler_send_error env a r n e hn hs, hrest]
    unfold responseCalls
    simp only [List.filter_append, hp.2.2, List.filter_cons, List.filter_nil, hresp,
      Event.isResponse, List.nil_append, List.append_nil]
    exact (responseCalls_writeError env _ _).1
  have h200 : ∀ n, (parseNotification r).1 = .ok n →
      (SendNotificationMessage env a.telegram n).1 = none →
      responseCalls (handler env a r)
        = response 200 (.successResponseJSON (lit "sent to telegram")) := by
    intro n hn hs
    obtain ⟨rest, hrest, _, hresp, _⟩ := SendNotificationMessage_events env a.telegram n
    rw [handler_send_ok env a r n hn hs, hrest]
    unfold responseCalls
    simp only [List.filter_append, hp.2.2, List.filter_cons, List.filter_nil, hresp,
      Event.isResponse, List.nil_append, List.append_nil]
    exact (responseCalls_writeSuccess env _ _).1
  refine ⟨h400, h500, h200, ?_, fun _ _ => rfl, rfl, rfl, rfl⟩
  cases hres : (parseNotification r).1 with
  | error e => exact Or.inl (h400 e hres)
  | ok n =>
    cases hs : (SendNotificationMessage env a.telegram n).1 with
    | some e => exact Or.inr (Or.inl (h500 n e hres hs))
    | none => exact Or.inr (Or.inr (h200 n hres hs))

/-- C6, witness: scenario 3 (remote status 503), scenario 4 (the outbound call
is cancelled with the request context) and scenario 1 (remote status 200). -/
theorem handler_outcome_witness :
    responseCalls (handler (scenarioEnv (.ok { StatusCode := 503, body := none }))
        scenarioApplication (scenarioRequest (lit "2024-01-02T03:04:05Z")))
      = response 500 (.errorResponseJSON (lit "telegram send error"))
    ∧ responseCalls (handler (scenarioEnv (.error (.external "context canceled")))
        scenarioApplication (scenarioRequest (lit "2024-01-02T03:04:05Z")))
      = response 500 (.errorResponseJSON (lit "telegram send error"))
    ∧ responseCalls (handler (scenarioEnv (.ok { StatusCode := 200, body := none }))
        scenarioApplication (scenarioRequest (lit "2024-01-02T03:04:05Z")))
      = response 200 (.successResponseJSON (lit "sent to telegram")) :=
  ⟨(handler_outcome _ _ _).2.1 scenarioNotification .errTelegramBadStatus rfl rfl,
    (handler_outcome _ _ _).2.1 scenarioNotification
      (.wrapped "error making telegram HTTP request" (.external "context canceled")) rfl rfl,
    (handler_outcome _ _ _).2.2.1 scenarioNotification rfl rfl⟩

/-- C9 (no delivery on parse failure, one attempt otherwise): when the payload
fails to parse the handler responds 400 and makes no call to the delivery
client and no outbound HTTP call; when it parses, the delivery client is entered
exactly once, makes at most one outbound HTTP call, and every call on the
response writer comes after the delivery client has returned. -/
theorem handler_delivery_attempts (env : Env) (a : Application) (r : Request) :
    (∀ e, (parseNotification r).1 = .error e →
        (handler env a r).filter Event.isSend = []
        ∧ (handler env a r).filter Event.isHTTPDo = []
        ∧ responseCalls (handler env a r)
            = response 400 (.errorResponseJSON (lit "request parse error")))
    ∧ (∀ n, (parseNotification r).1 = .ok n →
        (handler env a r).filter Event.isSend = [.sendNotificationMessage n]
        ∧ ((handler env a r).filter Event.isHTTPDo).length ≤ 1
        ∧ ∃ pre post,
            handler env a r = pre ++ (SendNotificationMessage env a.telegram n).2 ++ post
            ∧ responseCalls pre = []
            ∧ responseCalls ((SendNotificationMessage env a.telegram n).2) = []
            ∧ responseCalls post = responseCalls (handler env a r)
            ∧ responseCalls post ≠ []) := by
  have hp := parseNotification_events r
  constructor
  · intro e he
    have hw := responseCalls_writeError env StatusBadRequest (lit "request parse error")
    rw [handler_parse_error env a r e he]
    unfold responseCalls at hw ⊢
    simp only [List.filter_append, hp.1, hp.2.1, hp.2.2, hw.1, hw.2.1, hw.2.2,
      List.nil_append]
    exact ⟨trivial, trivial, rfl⟩
  · intro n hn
    obtain ⟨rest, hrest, hsend, hresp, hdo⟩ := SendNotificationMessage_events env a.telegram n
    cases hs : (SendNotificationMessage env a.telegram n).1 with
    | some e =>
      have hw := responseCalls_writeError env StatusInternalServerError
        (lit "telegram send error")
      have hh := handler_send_error env a r n e hn hs
      refine ⟨?_, ?_, (parseNotification r).2 ++ [.logInfo "received notification"],
        [.logInfo "telegram send error"]
          ++ writeError env StatusInternalServerError (lit "telegram send error"), ?_, ?_, ?_,
        ?_, ?_⟩
      · rw [hh, hrest]
        simp only [List.filter_append, hp.1, hw.2.1, List.filter_cons, List.filter_nil, hsend,
          Event.isSend, List.nil_append, List.append_nil, if_true]
        rfl
      · rw [hh, hrest]
        simp only [List.filter_append, hp.2.1, hw.2.2, List.filter_cons, List.filter_nil,
          Event.isHTTPDo, List.nil_append, List.append_nil]
        simpa using hdo
      · rw [hh]; simp only [List.append_assoc]
      · unfold responseCalls
        rw [List.filter_append, hp.2.2]
        rfl
      · rw [hrest]
        unfold responseCalls
        simp only [List.filter_cons, Event.isResponse, hresp]
        rfl
      · rw [hh, hrest]
        unfold responseCalls
        simp only [List.filter_append, hp.2.2, List.filter_cons, List.filter_nil, hresp,
          Event.isResponse, List.nil_append, List.append_nil]
        rfl
      · unfold responseCalls at hw ⊢
        rw [List.filter_append, hw.1]
        simp [response]
    | none =>
      have hw := responseCalls_writeSuccess env StatusOK (lit "sent to telegram")
      have hh := handler_send_ok env a r n hn hs
      refine ⟨?_, ?_, (parseNotification r).2 ++ [.logInfo "received notification"],
        writeSuccess env StatusOK (lit "sent to telegram"), ?_, ?_, ?_, ?_, ?_⟩
      · rw [hh, hrest]
        simp only [List.filter_append, hp.1, hw.2.1, List.filter_cons, List.filter_nil, hsend,
          Event.isSend, List.nil_append, List.append_nil, if_true]
        rfl
      · rw [hh, hrest]
        simp only [List.filter_append, hp.2.1, hw.2.2, List.filter_cons, List.filter_nil,
          Event.isHTTPDo, List.nil_append, List.append_nil]
        simpa using hdo
      · rw [hh]
      · unfold responseCalls
        rw [List.filter_append, hp.2.2]
        rfl
      · rw [hrest]
        unfold responseCalls
        simp only [List.filter_cons, Event.isResponse, hresp]
        rfl
      · rw [hh, hrest]
        unfold responseCalls
        simp only [List.filter_append, hp.2.2, List.filter_cons, List.filter_nil, hresp,
          Event.isResponse, List.nil_append, List.append_nil]
        rfl
      · rw [hw.1]
        simp [response]

/-- C9, witness: scenario 2, the payload with `_time` set to `not-a-time`, is
answered 400 without any call to the delivery client; the valid payload of
scenario 1 enters the delivery client exactly once. -/
theorem handler_delivery_attempts_witness :
    ((handler (scenarioEnv (.ok { StatusCode := 200, body := none })) scenarioApplication
          (scenarioRequest (lit "not-a-time"))).filter Event.isSend = []
      ∧ (handler (scenarioEnv (.ok { StatusCode := 200, body := none })) scenarioApplication
          (scenarioRequest (lit "not-a-time"))).filter Event.isHTTPDo = []
      ∧ responseCalls (handler (scenarioEnv (.ok { StatusCode := 200, body := none }))
          scenarioApplication (scenarioRequest (lit "not-a-time")))
        = response 400 (.errorResponseJSON (lit "request parse error")))
    ∧ (handler (scenarioEnv (.ok { StatusCode := 200, body := none })) scenarioApplication
          (scenarioRequest (lit "2024-01-02T03:04:05Z"))).filter Event.isSend
        = [.sendNotificationMessage scenarioNotification] :=
  ⟨(handler_delivery_attempts (scenarioEnv (.ok { StatusCode := 200, body := none }))
      scenarioApplication (scenarioRequest (lit "not-a-time"))).1
      (.wrapped "error parsing RFC3339 time" (.external "parsing time")) rfl,
    ((handler_delivery_attempts (scenarioEnv (.ok { StatusCode := 200, body := none }))
      scenarioApplication (scenarioRequest (lit "2024-01-02T03:04:05Z"))).2
      scenarioNotification rfl).1⟩

end InfluxTelegramProxy
